import Mathlib

/-!
# CHIP-8 instruction core (`src/chip8.c`)

A shallow embedding of the decode/execute core of the CHIP-8 emulator, and
theorems about it.  C integers are natural numbers or integers with the
conversions of the C types written out (`u8`, `u16`, `i8`); a call that the
C program does not return from normally (a failed `assert`, a read outside the
memory array) is an `Except.error`.
-/

namespace Chip8

/-! ## Machine integers -/

/-- Conversion of a C `int` value to `unsigned char`. -/
def u8 (z : Int) : Nat := (z % 256).toNat

/-- Conversion of a C `int` value to `unsigned short`. -/
def u16 (z : Int) : Nat := (z % 65536).toNat

/-- Conversion of a C `int` value to `char` (signed, eight bits, wrapping). -/
def i8 (z : Int) : Int := (z + 128) % 256 - 128

/-! ## Constants of `chip8.h` and of SDL -/

/-- Modelled from the spec: `CHIP8_MEMORY_SIZE` of the header that is not among
the sources; "a fixed 4096-byte addressable space". -/
def CHIP8_MEMORY_SIZE : Nat := 4096

/-- Modelled from the spec: `CHIP8_PROGRAM_LOAD_ADDRESS` of the header that is
not among the sources; "user programs are loaded starting at address 0x200". -/
def CHIP8_PROGRAM_LOAD_ADDRESS : Nat := 0x200

/-- Modelled from the spec: `CHIP8_DEFAULT_SPRITE_HEIGHT` of the header that is
not among the sources; "the fixed per-glyph byte count of the font table (5)". -/
def CHIP8_DEFAULT_SPRITE_HEIGHT : Nat := 5

/-- The event type `SDL_KEYDOWN` of `SDL_events.h`. -/
def SDL_KEYDOWN : Nat := 0x300

/-- The bytes of `chip8_default_character_set`, as `memcpy` copies them. -/
def chip8_default_character_set : List Nat :=
  [0xf0, 0x90, 0x90, 0x90, 0xf0,
   0x20, 0x60, 0x20, 0x20, 0x70,
   0xf0, 0x10, 0xf0, 0x80, 0xf0,
   0xf0, 0x10, 0xf0, 0x10, 0xf0,
   0x90, 0x90, 0xf0, 0x10, 0x10,
   0xf0, 0x80, 0xf0, 0x10, 0xf0,
   0xf0, 0x80, 0xf0, 0x90, 0xf0,
   0xf0, 0x10, 0x20, 0x40, 0x40,
   0xf0, 0x90, 0xf0, 0x90, 0xf0,
   0xf0, 0x90, 0xf0, 0x10, 0xf0,
   0xf0, 0x90, 0xf0, 0x90, 0x90,
   0xe0, 0x90, 0xe0, 0x90, 0xe0,
   0xf0, 0x80, 0x80, 0x80, 0xf0,
   0xe0, 0x90, 0x90, 0x90, 0xe0,
   0xf0, 0x80, 0xf0, 0x80, 0xf0,
   0xf0, 0x80, 0xf0, 0x80, 0x80]

/-! ## Data model -/

/-- Modelled from the spec: `struct chip8_registers` of the header that is not
among the sources: sixteen 8-bit registers `V`, the 16-bit index register `I`,
the 8-bit delay and sound timers and the 16-bit program counter. -/
structure chip8_registers where
  V : Nat → Nat
  I : Nat
  delay_timer : Nat
  sound_timer : Nat
  PC : Nat

/-- Modelled from the spec: `struct chip8` of the header that is not among the
sources: the memory bytes by address, the screen pixels, the registers, the
call stack as a LIFO of return addresses (most recent first) and the
key-down flags by key index. -/
structure chip8 where
  memory : Nat → Nat
  screen : Nat → Nat → Bool
  registers : chip8_registers
  stack : List Nat
  keyboard : Nat → Bool

/-- One event delivered by `SDL_WaitEvent`: `event.type` and
`event.key.keysym.sym`. -/
structure SDL_Event where
  type : Nat
  sym : Int

/-- The ways a call into the core does not return normally. -/
inductive chip8_fault where
  | load_assert
  | memory_bounds
  | stack_bounds
  | sprite_outside_memory
  deriving DecidableEq, Repr

/-- What the rest of the program and the host supply to one `chip8_exec` call:
the collaborators declared in headers that are not among the sources, the
value `rand()` returns, and the events `SDL_WaitEvent` delivers, in order
(when they run out `SDL_WaitEvent` returns 0). -/
structure chip8_host where
  CHIP8_TOTAL_STACK_DEPTH : Nat
  chip8_keyboard_map : (Nat → Bool) → Int → Int
  chip8_keyboard_is_down : (Nat → Bool) → Nat → Bool
  chip8_screen_clear : (Nat → Nat → Bool) → (Nat → Nat → Bool)
  chip8_screen_draw_sprite :
    (Nat → Nat → Bool) → Nat → Nat → List Nat → Nat → (Nat → Nat → Bool) × Bool
  rand : Nat
  SDL_WaitEvent : List SDL_Event

/-- The assignment `chip8->registers.V[i] = v`. -/
def chip8.setV (s : chip8) (i v : Nat) : chip8 :=
  { s with registers :=
      { s.registers with V := fun j => if j = i then v else s.registers.V j } }

/-- The assignment `chip8->registers.PC = v`. -/
def chip8.setPC (s : chip8) (v : Nat) : chip8 :=
  { s with registers := { s.registers with PC := v } }

/-- The assignment `chip8->registers.I = v`. -/
def chip8.setI (s : chip8) (v : Nat) : chip8 :=
  { s with registers := { s.registers with I := v } }

/-! ## The ALU group `8xyN` -/

/-- The function `eight_xyn` of the source. -/
def eight_xyn (s : chip8) (opcode : Nat) : chip8 :=
  let x := (opcode >>> 8) &&& 0x000f
  let y := (opcode >>> 4) &&& 0x000f
  let final_four_bits := opcode &&& 0x000f
  if final_four_bits = 0x00 then
    s.setV x (s.registers.V y)
  else if final_four_bits = 0x01 then
    s.setV x (s.registers.V x ||| s.registers.V y)
  else if final_four_bits = 0x02 then
    s.setV x (s.registers.V x &&& s.registers.V y)
  else if final_four_bits = 0x03 then
    s.setV x (s.registers.V x ^^^ s.registers.V y)
  else if final_four_bits = 0x04 then
    let temp := u16 ((s.registers.V x : Int) + s.registers.V y)
    let s1 := s.setV 0x0f 0
    let s2 := if temp > 0xff then s1.setV 0x0f 1 else s1
    s2.setV x (u8 temp)
  else if final_four_bits = 0x05 then
    let s1 := s.setV 0x0f 0
    let s2 := if s1.registers.V x > s1.registers.V y then s1.setV 0x0f 1 else s1
    s2.setV x (u8 ((s2.registers.V x : Int) - s2.registers.V y))
  else if final_four_bits = 0x06 then
    let s1 := s.setV 0x0f (s.registers.V x &&& 0x01)
    s1.setV x (s1.registers.V x / 2)
  else if final_four_bits = 0x07 then
    let s1 := s.setV 0x0f (if s.registers.V y > s.registers.V x then 1 else 0)
    s1.setV x (u8 ((s1.registers.V y : Int) - s1.registers.V x))
  else if final_four_bits = 0x0E then
    let s1 := s.setV 0x0f (s.registers.V x &&& 0b10000000)
    s1.setV x (u8 ((s1.registers.V x : Int) * 2))
  else
    s

/-! ## Collaborators: memory accessor and call stack -/

/-- Modelled from the spec: `chip8_memory_set`, whose source is not among the
files: "`set(addr, byte)`, ... implicitly bounds-checked by the provider".  An
address outside `[0, 4096)` stops the program. -/
def chip8_memory_set (memory : Nat → Nat) (index : Nat) (val : Nat) :
    Except chip8_fault (Nat → Nat) :=
  if index < CHIP8_MEMORY_SIZE then
    .ok (fun a => if a = index then val % 256 else memory a)
  else
    .error .memory_bounds

/-- Modelled from the spec: `chip8_memory_get`, whose source is not among the
files: "`get(addr) -> byte`, ... implicitly bounds-checked by the provider". -/
def chip8_memory_get (memory : Nat → Nat) (index : Nat) : Except chip8_fault Nat :=
  if index < CHIP8_MEMORY_SIZE then .ok (memory index) else .error .memory_bounds

/-- Modelled from the spec: `chip8_stack_push`, whose source is not among the
files: "a bounded LIFO of return addresses (16-bit)", "`push(addr16)` ...
provider enforces depth limits", "exceeding it is a fatal condition".  The
capacity is the constant `CHIP8_TOTAL_STACK_DEPTH` of the missing header. -/
def chip8_stack_push (depth : Nat) (s : chip8) (val : Nat) : Except chip8_fault chip8 :=
  if s.stack.length < depth then
    .ok { s with stack := val % 65536 :: s.stack }
  else
    .error .stack_bounds

/-- Modelled from the spec: `chip8_stack_pop`, whose source is not among the
files: "`pop() -> addr16`", "if the stack is empty this is undefined/fatal
(delegate enforces)". -/
def chip8_stack_pop (s : chip8) : Except chip8_fault (Nat × chip8) :=
  match s.stack with
  | [] => .error .stack_bounds
  | val :: rest => .ok (val, { s with stack := rest })

/-! ## The blocking key read -/

/-- The function `chip8_wait_for_key_press` of the source, over the events that
`SDL_WaitEvent` delivers; `kmap` is `chip8_keyboard_map` applied to
`&chip8->keyboard`.  The loop ends, and `-1` is returned, when `SDL_WaitEvent`
returns 0. -/
def chip8_wait_for_key_press (kmap : Int → Int) : List SDL_Event → Int
  | [] => -1
  | event :: rest =>
    if event.type ≠ SDL_KEYDOWN then
      chip8_wait_for_key_press kmap rest
    else
      let c := i8 event.sym
      let chip8_key := i8 (kmap c)
      if chip8_key ≠ 1 then
        chip8_key
      else
        chip8_wait_for_key_press kmap rest

/-! ## The group `Fxkk` -/

/-- The loop of `Fx55` after its first `k` rounds (`i = 0, ..., k - 1`): the
memory it has written so far. -/
def F_x_store (s : chip8) : Nat → Except chip8_fault (Nat → Nat)
  | 0 => .ok s.memory
  | k + 1 => do
    let m ← F_x_store s k
    chip8_memory_set m (s.registers.I + k) (s.registers.V k)

/-- The loop of `Fx65` after its first `k` rounds (`i = 0, ..., k - 1`): the
register file it has read so far. -/
def F_x_load (s : chip8) : Nat → Except chip8_fault (Nat → Nat)
  | 0 => .ok s.registers.V
  | k + 1 => do
    let V ← F_x_load s k
    let b ← chip8_memory_get s.memory (s.registers.I + k)
    .ok (fun j => if j = k then b else V j)

/-- The function `F_x` of the source. -/
def F_x (h : chip8_host) (s : chip8) (opcode : Nat) : Except chip8_fault chip8 :=
  let x := (opcode >>> 8) &&& 0x000f
  let sel := opcode &&& 0x00ff
  if sel = 0x07 then
    .ok (s.setV x s.registers.delay_timer)
  else if sel = 0x0A then
    let pressed_key :=
      chip8_wait_for_key_press (h.chip8_keyboard_map s.keyboard) h.SDL_WaitEvent
    .ok (s.setV x (u8 pressed_key))
  else if sel = 0x15 then
    .ok { s with registers := { s.registers with delay_timer := s.registers.V x } }
  else if sel = 0x18 then
    .ok { s with registers := { s.registers with sound_timer := s.registers.V x } }
  else if sel = 0x1e then
    .ok (s.setI (u16 ((s.registers.I : Int) + s.registers.V x)))
  else if sel = 0x29 then
    .ok (s.setI (u16 ((s.registers.V x : Int) * CHIP8_DEFAULT_SPRITE_HEIGHT)))
  else if sel = 0x33 then do
    let hundreds := u8 (s.registers.V x / 100)
    let tens := u8 (s.registers.V x / 10 % 10)
    let units := u8 (s.registers.V x % 10)
    let m1 ← chip8_memory_set s.memory s.registers.I hundreds
    let m2 ← chip8_memory_set m1 (s.registers.I + 1) tens
    let m3 ← chip8_memory_set m2 (s.registers.I + 2) units
    .ok { s with memory := m3 }
  else if sel = 0x55 then do
    let m ← F_x_store s (x + 1)
    .ok { s with memory := m }
  else if sel = 0x65 then do
    let V ← F_x_load s (x + 1)
    .ok { s with registers := { s.registers with V := V } }
  else
    .ok s

/-! ## The dispatchers -/

/-- The function `chip8_exec_extended` of the source. -/
def chip8_exec_extended (h : chip8_host) (s : chip8) (opcode : Nat) :
    Except chip8_fault chip8 :=
  let nnn := opcode &&& 0x0fff
  let x := (opcode >>> 8) &&& 0x000f
  let y := (opcode >>> 4) &&& 0x000f
  let kk := opcode &&& 0x00ff
  let n := opcode &&& 0x000f
  let sel := opcode &&& 0xf000
  if sel = 0x1000 then
    .ok (s.setPC nnn)
  else if sel = 0x2000 then do
    let s1 ← chip8_stack_push h.CHIP8_TOTAL_STACK_DEPTH s s.registers.PC
    .ok (s1.setPC nnn)
  else if sel = 0x3000 then
    .ok (if s.registers.V x = kk then s.setPC (u16 ((s.registers.PC : Int) + 2)) else s)
  else if sel = 0x4000 then
    .ok (if s.registers.V x ≠ kk then s.setPC (u16 ((s.registers.PC : Int) + 2)) else s)
  else if sel = 0x5000 then
    .ok (if s.registers.V x = s.registers.V y then
      s.setPC (u16 ((s.registers.PC : Int) + 2)) else s)
  else if sel = 0x6000 then
    .ok (s.setV x kk)
  else if sel = 0x7000 then
    .ok (s.setV x (u8 ((s.registers.V x : Int) + kk)))
  else if sel = 0x8000 then
    .ok (eight_xyn s opcode)
  else if sel = 0x9000 then
    .ok (if s.registers.V x ≠ s.registers.V y then
      s.setPC (u16 ((s.registers.PC : Int) + 2)) else s)
  else if sel = 0xA000 then
    .ok (s.setI nnn)
  else if sel = 0xB000 then
    .ok (s.setPC (u16 ((nnn : Int) + s.registers.V 0x00)))
  else if sel = 0xC000 then
    .ok (s.setV x (u8 ((h.rand % 255 : Nat) &&& kk : Nat)))
  else if sel = 0xD000 then
    if s.registers.I + n ≤ CHIP8_MEMORY_SIZE then
      let sprite := (List.range n).map (fun i => s.memory (s.registers.I + i))
      let r := h.chip8_screen_draw_sprite s.screen (s.registers.V x) (s.registers.V y) sprite n
      .ok ({ s with screen := r.1 }.setV 0x0f (if r.2 then 1 else 0))
    else
      .error .sprite_outside_memory
  else if sel = 0xE000 then
    let sel2 := opcode &&& 0x00ff
    if sel2 = 0x9e then
      .ok (if h.chip8_keyboard_is_down s.keyboard (s.registers.V x) then
        s.setPC (u16 ((s.registers.PC : Int) + 2)) else s)
    else if sel2 = 0xa1 then
      .ok (if ¬ h.chip8_keyboard_is_down s.keyboard (s.registers.V x) then
        s.setPC (u16 ((s.registers.PC : Int) + 2)) else s)
    else
      .ok s
  else if sel = 0xF000 then
    F_x h s opcode
  else
    .ok s

/-- The function `chip8_exec` of the source. -/
def chip8_exec (h : chip8_host) (s : chip8) (opcode : Nat) : Except chip8_fault chip8 :=
  if opcode = 0x00E0 then
    .ok { s with screen := h.chip8_screen_clear s.screen }
  else if opcode = 0x00EE then do
    let r ← chip8_stack_pop s
    .ok (r.2.setPC r.1)
  else
    chip8_exec_extended h s opcode

/-! ## Start-up -/

/-- The function `chip8_init` of the source: everything zero, then the
character set copied to the start of memory. -/
def chip8_init : chip8 where
  memory := fun a => chip8_default_character_set.getD a 0
  screen := fun _ _ => false
  registers := { V := fun _ => 0, I := 0, delay_timer := 0, sound_timer := 0, PC := 0 }
  stack := []
  keyboard := fun _ => false

/-- The function `chip8_load` of the source; `size` is the length of `buf`.  A
buffer is an object in memory, so `size + 0x200` does not wrap in `size_t`. -/
def chip8_load (s : chip8) (buf : List Nat) : Except chip8_fault chip8 :=
  if buf.length + CHIP8_PROGRAM_LOAD_ADDRESS < CHIP8_MEMORY_SIZE then
    .ok ({ s with memory := fun a =>
            if CHIP8_PROGRAM_LOAD_ADDRESS ≤ a ∧ a < CHIP8_PROGRAM_LOAD_ADDRESS + buf.length then
              buf.getD (a - CHIP8_PROGRAM_LOAD_ADDRESS) 0 % 256
            else s.memory a }.setPC CHIP8_PROGRAM_LOAD_ADDRESS)
  else
    .error .load_assert

/-- A run of `chip8_exec` over a list of opcodes, stopping at the first call
that does not return. -/
def chip8_run (h : chip8_host) (s : chip8) : List Nat → Except chip8_fault chip8
  | [] => .ok s
  | opcode :: rest => do
    let s1 ← chip8_exec h s opcode
    chip8_run h s1 rest

/-! ## Well-formed states -/

/-- The ranges the C types give the fields of `struct chip8`. -/
def chip8_wf (s : chip8) : Prop :=
  (∀ i, i < 16 → s.registers.V i < 256) ∧
  s.registers.I < 65536 ∧ s.registers.PC < 65536 ∧
  s.registers.delay_timer < 256 ∧ s.registers.sound_timer < 256 ∧
  (∀ a, a < 4096 → s.memory a < 256) ∧
  (∀ r ∈ s.stack, r < 65536)

/-- State `t` differs from state `s` at most in the program counter: the
registers `V`, `I`, the timers, memory, the stack, the screen and the keyboard
are those of `s`. -/
def chip8_same_but_PC (s t : chip8) : Prop :=
  t.registers.V = s.registers.V ∧ t.registers.I = s.registers.I ∧
  t.registers.delay_timer = s.registers.delay_timer ∧
  t.registers.sound_timer = s.registers.sound_timer ∧
  t.memory = s.memory ∧ t.stack = s.stack ∧
  t.screen = s.screen ∧ t.keyboard = s.keyboard

/-- The memory addresses one `chip8_exec` call asks for, in order, read off
the access sites of the source: `Dxyn` reads `n` sprite bytes from `I`, `Fx33`
writes at `I`, `I + 1`, `I + 2`, and `Fx55` and `Fx65` go through `I + i` for
`i = 0, ..., x`.  No other opcode touches memory. -/
def chip8_exec_addresses (s : chip8) (opcode : Nat) : List Nat :=
  let x := (opcode >>> 8) &&& 0x000f
  let n := opcode &&& 0x000f
  if opcode &&& 0xf000 = 0xD000 then
    (List.range n).map (fun i => s.registers.I + i)
  else if opcode &&& 0xf000 = 0xF000 then
    if opcode &&& 0x00ff = 0x33 then
      [s.registers.I, s.registers.I + 1, s.registers.I + 2]
    else if opcode &&& 0x00ff = 0x55 then
      (List.range (x + 1)).map (fun i => s.registers.I + i)
    else if opcode &&& 0x00ff = 0x65 then
      (List.range (x + 1)).map (fun i => s.registers.I + i)
    else
      []
  else
    []

/-- The states reachable from `chip8_init` followed by `chip8_load` through
calls of `chip8_exec` on 16-bit opcodes that return. -/
inductive chip8_reachable (h : chip8_host) : chip8 → Prop where
  | start (buf : List Nat) (s : chip8) :
      chip8_load chip8_init buf = .ok s → chip8_reachable h s
  | step (s s1 : chip8) (opcode : Nat) :
      chip8_reachable h s → opcode < 65536 → chip8_exec h s opcode = .ok s1 →
      chip8_reachable h s1

/-- State `t` differs from state `s` at most in the register `V[x]`: every
other register `V[j]`, `I`, `PC`, the timers, memory, the stack, the screen and
the keyboard are those of `s`. -/
def chip8_same_but_Vx (x : Nat) (s t : chip8) : Prop :=
  (∀ j, j ≠ x → t.registers.V j = s.registers.V j) ∧
  t.registers.I = s.registers.I ∧ t.registers.PC = s.registers.PC ∧
  t.registers.delay_timer = s.registers.delay_timer ∧
  t.registers.sound_timer = s.registers.sound_timer ∧
  t.memory = s.memory ∧ t.stack = s.stack ∧
  t.screen = s.screen ∧ t.keyboard = s.keyboard

/-- A sample host, for running the core on concrete inputs: a stack of 16
entries, a keyboard map that sends the characters `0`..`9` and `a`..`f` to the
key indices 0..15 and every other character to `-1`, a screen that stays blank,
`rand()` returning 0 and no pending events. -/
def chip8_host_sample : chip8_host where
  CHIP8_TOTAL_STACK_DEPTH := 16
  chip8_keyboard_map := fun _ c =>
    if 48 ≤ c ∧ c ≤ 57 then c - 48 else if 97 ≤ c ∧ c ≤ 102 then c - 87 else -1
  chip8_keyboard_is_down := fun kb k => kb k
  chip8_screen_clear := fun _ => fun _ _ => false
  chip8_screen_draw_sprite := fun scr _ _ _ _ => (scr, false)
  rand := 0
  SDL_WaitEvent := []

/-! ## Decoding lemmas -/

theorem dec_n (op : Nat) : op &&& 0x000f = op % 16 :=
  Nat.and_pow_two_sub_one_eq_mod op 4

theorem dec_kk (op : Nat) : op &&& 0x00ff = op % 256 :=
  Nat.and_pow_two_sub_one_eq_mod op 8

theorem dec_nnn (op : Nat) : op &&& 0x0fff = op % 4096 :=
  Nat.and_pow_two_sub_one_eq_mod op 12

theorem shr8 (op : Nat) : op >>> 8 = op / 256 :=
  Nat.shiftRight_eq_div_pow op 8

theorem shr4 (op : Nat) : op >>> 4 = op / 16 :=
  Nat.shiftRight_eq_div_pow op 4

theorem dec_hi (op : Nat) : op &&& 0xf000 = op / 4096 % 16 * 4096 := by
  have e : op / 4096 % 16 * 4096 = ((op >>> 12) % 2 ^ 4) <<< 12 := by
    rw [Nat.shiftLeft_eq, Nat.shiftRight_eq_div_pow]; norm_num
  have f : (0xf000 : Nat) = (2 ^ 4 - 1) <<< 12 := by decide
  rw [e, f]
  apply Nat.eq_of_testBit_eq
  intro i
  simp only [Nat.testBit_and, Nat.testBit_shiftLeft, Nat.testBit_mod_two_pow,
    Nat.testBit_shiftRight, Nat.testBit_two_pow_sub_one]
  by_cases h : 12 ≤ i
  · have : 12 + (i - 12) = i := by omega
    simp [h, this, Bool.and_comm]
  · simp [h]

/-- An opcode with high nibble 8 goes to `eight_xyn`. -/
theorem chip8_exec_group8 (h : chip8_host) (s : chip8) (op : Nat)
    (hop : op / 4096 % 16 = 8) : chip8_exec h s op = .ok (eight_xyn s op) := by
  have e1 : op ≠ 0x00E0 := by omega
  have e2 : op ≠ 0x00EE := by omega
  have hi : op &&& 0xf000 = 0x8000 := by rw [dec_hi]; omega
  simp [chip8_exec, chip8_exec_extended, e1, e2, hi]

/-- An opcode with high nibble F goes to `F_x`. -/
theorem chip8_exec_groupF (h : chip8_host) (s : chip8) (op : Nat)
    (hop : op / 4096 % 16 = 15) : chip8_exec h s op = F_x h s op := by
  have e1 : op ≠ 0x00E0 := by omega
  have e2 : op ≠ 0x00EE := by omega
  have hi : op &&& 0xf000 = 0xF000 := by rw [dec_hi]; omega
  simp [chip8_exec, chip8_exec_extended, e1, e2, hi]

theorem u8_nat (n : Nat) : u8 (n : Int) = n % 256 := by
  unfold u8; omega

theorem u8_sub (a b : Nat) : ((u8 ((a : Int) - b) : Nat) : Int) = ((a : Int) - b) % 256 := by
  unfold u8; omega

theorem u8_lt (z : Int) : u8 z < 256 := by
  unfold u8; omega

theorem u16_add (a b : Nat) : u16 ((a : Int) + b) = (a + b) % 65536 := by
  unfold u16; omega

theorem u16_lt (z : Int) : u16 z < 65536 := by
  unfold u16; omega

/-! ## Well-formedness of the states used as concrete inputs -/

theorem chip8_default_character_set_getD_lt (a : Nat) :
    chip8_default_character_set.getD a 0 < 256 := by
  by_cases ha : a < chip8_default_character_set.length
  · have hall : ∀ b ∈ chip8_default_character_set, b < 256 := by decide
    rw [List.getD_eq_getElem _ _ ha]
    exact hall _ (List.getElem_mem _)
  · rw [List.getD_eq_default _ _ (by omega)]
    decide

theorem chip8_init_wf : chip8_wf chip8_init := by
  refine ⟨fun _ _ => by simp [chip8_init], by decide, by decide, by decide, by decide, ?_, ?_⟩
  · intro a _
    exact chip8_default_character_set_getD_lt a
  · intro r hr
    simp [chip8_init] at hr

theorem chip8_wf_setV (s : chip8) (i v : Nat) (hs : chip8_wf s) (hv : v < 256) :
    chip8_wf (s.setV i v) := by
  obtain ⟨h1, h2, h3, h4, h5, h6, h7⟩ := hs
  refine ⟨?_, h2, h3, h4, h5, h6, h7⟩
  intro j hj
  by_cases e : j = i
  · simp [chip8.setV, e, hv]
  · simpa [chip8.setV, e] using h1 j hj

theorem chip8_wf_setI (s : chip8) (v : Nat) (hs : chip8_wf s) (hv : v < 65536) :
    chip8_wf (s.setI v) := by
  obtain ⟨h1, h2, h3, h4, h5, h6, h7⟩ := hs
  exact ⟨h1, hv, h3, h4, h5, h6, h7⟩

/-! ## The ALU group -/

/-- C3: for every well-formed state, destination `x` in 0..14 and source `y` in
0..15, `chip8_exec` on `0x8xy4` returns, leaving `V[0xF] = 1` when the sum of
the old `V[x]` and `V[y]` exceeds 255 and `0` otherwise, and `V[x]` equal to
that sum modulo 256. -/
theorem chip8_exec_add_carry (h : chip8_host) (s : chip8) (x y : Nat)
    (hs : chip8_wf s) (hx : x ≤ 14) (hy : y ≤ 15) :
    ∃ s1, chip8_exec h s (0x8004 + 0x100 * x + 0x10 * y) = .ok s1 ∧
      s1.registers.V 0xF = (if s.registers.V x + s.registers.V y > 255 then 1 else 0) ∧
      s1.registers.V x = (s.registers.V x + s.registers.V y) % 256 := by
  have ha : s.registers.V x < 256 := hs.1 x (by omega)
  have hb : s.registers.V y < 256 := hs.1 y (by omega)
  have dx : (0x8004 + 0x100 * x + 0x10 * y) / 256 % 16 = x := by omega
  have dy : (0x8004 + 0x100 * x + 0x10 * y) / 16 % 16 = y := by omega
  have dn : (0x8004 + 0x100 * x + 0x10 * y) % 16 = 4 := by omega
  have hx15 : ¬ (15 = x) := by omega
  have ht : u16 ((s.registers.V x : Int) + s.registers.V y)
      = s.registers.V x + s.registers.V y := by rw [u16_add]; omega
  refine ⟨_, chip8_exec_group8 h s _ (by omega), ?_, ?_⟩
  · generalize 0x8004 + 0x100 * x + 0x10 * y = op at *
    simp only [eight_xyn, dec_n, shr8, shr4, dx, dy, dn, ht]
    by_cases hc : s.registers.V x + s.registers.V y > 255 <;> simp [chip8.setV, hc, hx15]
  · generalize 0x8004 + 0x100 * x + 0x10 * y = op at *
    simp only [eight_xyn, dec_n, shr8, shr4, dx, dy, dn, ht, u8_nat]
    by_cases hc : s.registers.V x + s.registers.V y > 255 <;> simp [chip8.setV, hc]
/-- Witness of `chip8_exec_add_carry`: 200 + 100 in `V[0]`, `V[1]`. -/
theorem chip8_exec_add_carry_witness :
    chip8_wf ((chip8_init.setV 0 200).setV 1 100) ∧
    ∃ s1, chip8_exec chip8_host_sample ((chip8_init.setV 0 200).setV 1 100)
        (0x8004 + 0x100 * 0 + 0x10 * 1) = .ok s1 ∧
      s1.registers.V 0xF = 1 ∧ s1.registers.V 0 = 44 :=
  ⟨chip8_wf_setV _ 1 100 (chip8_wf_setV _ 0 200 chip8_init_wf (by decide)) (by decide),
   chip8_exec_add_carry chip8_host_sample ((chip8_init.setV 0 200).setV 1 100) 0 1
     (chip8_wf_setV _ 1 100 (chip8_wf_setV _ 0 200 chip8_init_wf (by decide)) (by decide))
     (by decide) (by decide)⟩

/-- C1: evaluation of `chip8_exec` on `0x80F5` (`x = 0`, `y = 0xF`) in the state
reached from `chip8_init` by `0x6005`, `0x6F07`, where `V[0] = 5` and
`V[0xF] = 7`: the instruction leaves `V[0] = 4` and `V[0xF] = 1`, because the
flag register is cleared before it is read as the source operand. -/
theorem chip8_exec_sub_source_is_flag :
    (chip8_run chip8_host_sample chip8_init [0x6005, 0x6F07]).toOption.map
        (fun s => (s.registers.V 0, s.registers.V 0xF)) = some (5, 7) ∧
    (chip8_run chip8_host_sample chip8_init [0x6005, 0x6F07, 0x80F5]).toOption.map
        (fun s => (s.registers.V 0, s.registers.V 0xF)) = some (4, 1) := by
  decide

/-- C9: evaluation of `chip8_exec` on `0x80F7` (`x = 0`, `y = 0xF`) in the state
reached from `chip8_init` by `0x6005`, `0x6F07`, where `V[0] = 5` and
`V[0xF] = 7`: the instruction leaves `V[0] = 252` and `V[0xF] = 1`, because the
flag is written into the source register before the subtraction reads it. -/
theorem chip8_exec_subn_source_is_flag :
    (chip8_run chip8_host_sample chip8_init [0x6005, 0x6F07]).toOption.map
        (fun s => (s.registers.V 0, s.registers.V 0xF)) = some (5, 7) ∧
    (chip8_run chip8_host_sample chip8_init [0x6005, 0x6F07, 0x80F7]).toOption.map
        (fun s => (s.registers.V 0, s.registers.V 0xF)) = some (252, 1) := by
  decide

/-- Away from `y = 0xF` the subtraction `8xy5` is as documented: for every
state, `x` and `y` in 0..14, it leaves `V[0xF] = 1` when the old `V[x]` exceeds
the old `V[y]` and `0` otherwise, and `V[x]` equal to their difference modulo
256. -/
theorem chip8_exec_sub_other_source (h : chip8_host) (s : chip8) (x y : Nat)
    (hx : x ≤ 14) (hy : y ≤ 14) :
    ∃ s1, chip8_exec h s (0x8005 + 0x100 * x + 0x10 * y) = .ok s1 ∧
      s1.registers.V 0xF = (if s.registers.V x > s.registers.V y then 1 else 0) ∧
      (s1.registers.V x : Int) = ((s.registers.V x : Int) - s.registers.V y) % 256 := by
  have dx : (0x8005 + 0x100 * x + 0x10 * y) / 256 % 16 = x := by omega
  have dy : (0x8005 + 0x100 * x + 0x10 * y) / 16 % 16 = y := by omega
  have dn : (0x8005 + 0x100 * x + 0x10 * y) % 16 = 5 := by omega
  have hx15 : ¬ (15 = x) := by omega
  have hx15b : ¬ (x = 15) := by omega
  have hy15b : ¬ (y = 15) := by omega
  refine ⟨_, chip8_exec_group8 h s _ (by omega), ?_, ?_⟩
  · generalize 0x8005 + 0x100 * x + 0x10 * y = op at *
    simp only [eight_xyn, dec_n, shr8, shr4, dx, dy, dn]
    by_cases hc : s.registers.V x > s.registers.V y <;>
      simp [chip8.setV, hc, hx15, hx15b, hy15b]
  · generalize 0x8005 + 0x100 * x + 0x10 * y = op at *
    simp only [eight_xyn, dec_n, shr8, shr4, dx, dy, dn]
    by_cases hc : s.registers.V x > s.registers.V y <;>
      simp [chip8.setV, hc, hx15, hx15b, hy15b, u8_sub]

/-- Away from `y = 0xF` the reverse subtraction `8xy7` is as documented: for
every state, `x` and `y` in 0..14, it leaves `V[0xF] = 1` when the old `V[y]`
exceeds the old `V[x]` and `0` otherwise, and `V[x]` equal to `V[y] - V[x]`
modulo 256. -/
theorem chip8_exec_subn_other_source (h : chip8_host) (s : chip8) (x y : Nat)
    (hx : x ≤ 14) (hy : y ≤ 14) :
    ∃ s1, chip8_exec h s (0x8007 + 0x100 * x + 0x10 * y) = .ok s1 ∧
      s1.registers.V 0xF = (if s.registers.V y > s.registers.V x then 1 else 0) ∧
      (s1.registers.V x : Int) = ((s.registers.V y : Int) - s.registers.V x) % 256 := by
  have dx : (0x8007 + 0x100 * x + 0x10 * y) / 256 % 16 = x := by omega
  have dy : (0x8007 + 0x100 * x + 0x10 * y) / 16 % 16 = y := by omega
  have dn : (0x8007 + 0x100 * x + 0x10 * y) % 16 = 7 := by omega
  have hx15 : ¬ (15 = x) := by omega
  have hx15b : ¬ (x = 15) := by omega
  have hy15b : ¬ (y = 15) := by omega
  refine ⟨_, chip8_exec_group8 h s _ (by omega), ?_, ?_⟩
  · generalize 0x8007 + 0x100 * x + 0x10 * y = op at *
    simp only [eight_xyn, dec_n, shr8, shr4, dx, dy, dn]
    simp [chip8.setV, hx15]
  · generalize 0x8007 + 0x100 * x + 0x10 * y = op at *
    simp only [eight_xyn, dec_n, shr8, shr4, dx, dy, dn]
    simp [chip8.setV, hx15b, hy15b, u8_sub]

/-- C10: for every state, `x` in 0..14 and `y` in 0..15, `chip8_exec` on `0x8xy6`
returns, leaving `V[0xF]` equal to the low bit of the old `V[x]` and `V[x]`
equal to the old `V[x]` divided by 2, which is the old `V[x]` shifted right by
one; from 147 it leaves flag 1 and `V[x] = 73`; the result is the same
whichever `y` the opcode names. -/
theorem chip8_exec_shift_right (h : chip8_host) (s : chip8) (x y : Nat)
    (hx : x ≤ 14) (hy : y ≤ 15) :
    ∃ s1, chip8_exec h s (0x8006 + 0x100 * x + 0x10 * y) = .ok s1 ∧
      s1.registers.V 0xF = s.registers.V x &&& 1 ∧
      s1.registers.V x = s.registers.V x / 2 ∧
      s.registers.V x / 2 = s.registers.V x >>> 1 ∧
      (s.registers.V x = 147 → s1.registers.V 0xF = 1 ∧ s1.registers.V x = 73) ∧
      (∀ y2, y2 ≤ 15 → chip8_exec h s (0x8006 + 0x100 * x + 0x10 * y2) = .ok s1) := by
  have key : ∀ y2, y2 ≤ 15 → chip8_exec h s (0x8006 + 0x100 * x + 0x10 * y2)
      = .ok ((s.setV 0x0f (s.registers.V x &&& 0x01)).setV x
          ((s.setV 0x0f (s.registers.V x &&& 0x01)).registers.V x / 2)) := by
    intro y2 hy2
    have dx : (0x8006 + 0x100 * x + 0x10 * y2) / 256 % 16 = x := by omega
    have dn : (0x8006 + 0x100 * x + 0x10 * y2) % 16 = 6 := by omega
    rw [chip8_exec_group8 h s _ (by omega)]
    generalize 0x8006 + 0x100 * x + 0x10 * y2 = op at *
    simp only [eight_xyn, dec_n, shr8, shr4, dx, dn]
    simp
  have hx15 : ¬ (15 = x) := by omega
  have hx15b : ¬ (x = 15) := by omega
  refine ⟨_, key y hy, ?_, ?_, ?_, ?_, key⟩
  · simp [chip8.setV, hx15]
  · simp [chip8.setV, hx15b]
  · exact (Nat.shiftRight_eq_div_pow _ 1)
  · intro ha
    simp [chip8.setV, hx15, hx15b, ha]

/-- Witness of `chip8_exec_shift_right`: `x = 3`, `y = 7`, with `V[3] = 147`. -/
theorem chip8_exec_shift_right_witness :
    3 ≤ 14 ∧ 7 ≤ 15 ∧
    ∃ s1, chip8_exec chip8_host_sample (chip8_init.setV 3 147)
        (0x8006 + 0x100 * 3 + 0x10 * 7) = .ok s1 ∧
      s1.registers.V 0xF = 1 ∧
      s1.registers.V 3 = 73 ∧
      147 / 2 = 147 >>> 1 ∧
      ((chip8_init.setV 3 147).registers.V 3 = 147 →
        s1.registers.V 0xF = 1 ∧ s1.registers.V 3 = 73) ∧
      (∀ y2, y2 ≤ 15 →
        chip8_exec chip8_host_sample (chip8_init.setV 3 147)
          (0x8006 + 0x100 * 3 + 0x10 * y2) = .ok s1) :=
  ⟨by decide, by decide,
   chip8_exec_shift_right chip8_host_sample (chip8_init.setV 3 147) 3 7 (by decide) (by decide)⟩

/-! ## The blocking key read -/

/-- C2: evaluation of the key read with the sample keyboard map.  With the
key-down events `1`, `2` pending (key indices 1 and 2) the wait returns 2 and
`0xF00A` stores 2 in `V[0]`: the event of key 1 is passed over.  With the
key-down events `z`, `2` pending (`z` is not a key) the wait returns `-1` and
`0xF00A` stores 255 in `V[0]`. -/
theorem chip8_wait_for_key_press_compares_with_one :
    chip8_wait_for_key_press (chip8_host_sample.chip8_keyboard_map chip8_init.keyboard)
        [⟨SDL_KEYDOWN, 49⟩, ⟨SDL_KEYDOWN, 50⟩] = 2 ∧
    chip8_wait_for_key_press (chip8_host_sample.chip8_keyboard_map chip8_init.keyboard)
        [⟨SDL_KEYDOWN, 122⟩, ⟨SDL_KEYDOWN, 50⟩] = -1 ∧
    (chip8_exec { chip8_host_sample with
          SDL_WaitEvent := [⟨SDL_KEYDOWN, 49⟩, ⟨SDL_KEYDOWN, 50⟩] }
        chip8_init 0xF00A).toOption.map (fun s => s.registers.V 0) = some 2 ∧
    (chip8_exec { chip8_host_sample with
          SDL_WaitEvent := [⟨SDL_KEYDOWN, 122⟩, ⟨SDL_KEYDOWN, 50⟩] }
        chip8_init 0xF00A).toOption.map (fun s => s.registers.V 0) = some 255 := by
  decide

/-- What the wait returns, for every keyboard map and every sequence of events:
the mapped value of the first key-down event whose mapped value differs from
1, and `-1` when there is none. -/
theorem chip8_wait_for_key_press_eq (kmap : Int → Int) (events : List SDL_Event) :
    chip8_wait_for_key_press kmap events =
      match events.find? (fun e => decide (e.type = SDL_KEYDOWN) &&
          decide (i8 (kmap (i8 e.sym)) ≠ 1)) with
      | some e => i8 (kmap (i8 e.sym))
      | none => -1 := by
  induction events with
  | nil => rfl
  | cons e rest ih =>
    by_cases ht : e.type = SDL_KEYDOWN
    · by_cases hk : i8 (kmap (i8 e.sym)) = 1
      · simp [chip8_wait_for_key_press, List.find?, ht, hk, ih]
      · simp [chip8_wait_for_key_press, List.find?, ht, hk]
    · simp [chip8_wait_for_key_press, List.find?, ht, ih]

/-! ## Control flow -/

/-- Every opcode from `0x1000` up goes to `chip8_exec_extended`. -/
theorem chip8_exec_of_ge (h : chip8_host) (s : chip8) (op : Nat) (hop : 0x1000 ≤ op) :
    chip8_exec h s op = chip8_exec_extended h s op := by
  have e1 : op ≠ 0x00E0 := by omega
  have e2 : op ≠ 0x00EE := by omega
  simp [chip8_exec, e1, e2]

/-- C4: for every well-formed state whose stack has room and every 12-bit
address `nnn`, `chip8_exec` on `0x2nnn` returns with `PC = nnn` and the old `PC`
pushed, and `chip8_exec` on `0x00EE` after it returns with `PC` and the stack
(contents and depth) as they were before the call. -/
theorem chip8_exec_call_ret (h : chip8_host) (s : chip8) (nnn : Nat)
    (hs : chip8_wf s) (hroom : s.stack.length < h.CHIP8_TOTAL_STACK_DEPTH)
    (hn : nnn < 4096) :
    ∃ s1 s2, chip8_exec h s (0x2000 + nnn) = .ok s1 ∧
      s1.registers.PC = nnn ∧ s1.stack = s.registers.PC :: s.stack ∧
      chip8_exec h s1 0x00EE = .ok s2 ∧
      s2.registers.PC = s.registers.PC ∧ s2.stack = s.stack ∧
      s2.stack.length = s.stack.length := by
  have hpc : s.registers.PC % 65536 = s.registers.PC := Nat.mod_eq_of_lt hs.2.2.1
  have d1 : (0x2000 + nnn) / 4096 % 16 = 2 := by omega
  have d2 : (0x2000 + nnn) % 4096 = nnn := by omega
  have e : chip8_exec h s (0x2000 + nnn)
      = .ok ({ s with stack := s.registers.PC :: s.stack }.setPC nnn) := by
    rw [chip8_exec_of_ge h s _ (by omega)]
    generalize 0x2000 + nnn = op at *
    simp only [chip8_exec_extended, dec_hi, dec_nnn, d1, d2]
    simp [chip8_stack_push, hroom, hpc, bind, Except.bind]
  refine ⟨_, _, e, rfl, rfl, ?_, rfl, rfl, rfl⟩
  simp [chip8_exec, chip8_stack_pop, chip8.setPC, bind, Except.bind]

/-- Witness of `chip8_exec_call_ret`: a call to `0x345` from the initial
state. -/
theorem chip8_exec_call_ret_witness :
    chip8_wf chip8_init ∧
    chip8_init.stack.length < chip8_host_sample.CHIP8_TOTAL_STACK_DEPTH ∧ 0x345 < 4096 ∧
    ∃ s1 s2, chip8_exec chip8_host_sample chip8_init (0x2000 + 0x345) = .ok s1 ∧
      s1.registers.PC = 0x345 ∧ s1.stack = chip8_init.registers.PC :: chip8_init.stack ∧
      chip8_exec chip8_host_sample s1 0x00EE = .ok s2 ∧
      s2.registers.PC = chip8_init.registers.PC ∧ s2.stack = chip8_init.stack ∧
      s2.stack.length = chip8_init.stack.length :=
  ⟨chip8_init_wf, by decide, by decide,
   chip8_exec_call_ret chip8_host_sample chip8_init 0x345 chip8_init_wf (by decide) (by decide)⟩

theorem chip8_same_but_PC_ite (s : chip8) (c : Prop) [Decidable c] (v : Nat) :
    (if c then s.setPC v else s).registers.PC = (if c then v else s.registers.PC) ∧
    chip8_same_but_PC s (if c then s.setPC v else s) := by
  by_cases hc : c <;> simp [hc, chip8.setPC, chip8_same_but_PC]

theorem u16_pc (pc : Nat) : u16 ((pc : Int) + 2) = (pc + 2) % 65536 := by
  unfold u16; omega

/-- C5: for every state and operands `x`, `y` in 0..15 and `kk` in 0..255, each
conditional skip (`3xkk` on `V[x] = kk`, `4xkk` on `V[x] ≠ kk`, `5xy0` on
`V[x] = V[y]`, `9xy0` on `V[x] ≠ V[y]`) returns with `PC` advanced by 2 modulo
65536 when its condition holds and `PC` unchanged otherwise, and with every
other part of the state unchanged. -/
theorem chip8_exec_skip (h : chip8_host) (s : chip8) (x y kk : Nat)
    (hx : x ≤ 15) (hy : y ≤ 15) (hkk : kk ≤ 255) :
    (∃ s1, chip8_exec h s (0x3000 + 0x100 * x + kk) = .ok s1 ∧
      s1.registers.PC = (if s.registers.V x = kk then (s.registers.PC + 2) % 65536
        else s.registers.PC) ∧ chip8_same_but_PC s s1) ∧
    (∃ s1, chip8_exec h s (0x4000 + 0x100 * x + kk) = .ok s1 ∧
      s1.registers.PC = (if s.registers.V x ≠ kk then (s.registers.PC + 2) % 65536
        else s.registers.PC) ∧ chip8_same_but_PC s s1) ∧
    (∃ s1, chip8_exec h s (0x5000 + 0x100 * x + 0x10 * y) = .ok s1 ∧
      s1.registers.PC = (if s.registers.V x = s.registers.V y
        then (s.registers.PC + 2) % 65536 else s.registers.PC) ∧
      chip8_same_but_PC s s1) ∧
    (∃ s1, chip8_exec h s (0x9000 + 0x100 * x + 0x10 * y) = .ok s1 ∧
      s1.registers.PC = (if s.registers.V x ≠ s.registers.V y
        then (s.registers.PC + 2) % 65536 else s.registers.PC) ∧
      chip8_same_but_PC s s1) := by
  refine ⟨?_, ?_, ?_, ?_⟩
  · have d1 : (0x3000 + 0x100 * x + kk) / 4096 % 16 = 3 := by omega
    have dx : (0x3000 + 0x100 * x + kk) / 256 % 16 = x := by omega
    have dk : (0x3000 + 0x100 * x + kk) % 256 = kk := by omega
    refine ⟨if s.registers.V x = kk then s.setPC ((s.registers.PC + 2) % 65536) else s,
      ?_, chip8_same_but_PC_ite s _ _⟩
    rw [chip8_exec_of_ge h s _ (by omega)]
    generalize 0x3000 + 0x100 * x + kk = op at *
    simp only [chip8_exec_extended, dec_hi, dec_kk, dec_n, shr8, shr4, d1, dx, dk, u16_pc]
    simp
  · have d1 : (0x4000 + 0x100 * x + kk) / 4096 % 16 = 4 := by omega
    have dx : (0x4000 + 0x100 * x + kk) / 256 % 16 = x := by omega
    have dk : (0x4000 + 0x100 * x + kk) % 256 = kk := by omega
    refine ⟨if s.registers.V x ≠ kk then s.setPC ((s.registers.PC + 2) % 65536) else s,
      ?_, chip8_same_but_PC_ite s _ _⟩
    rw [chip8_exec_of_ge h s _ (by omega)]
    generalize 0x4000 + 0x100 * x + kk = op at *
    simp only [chip8_exec_extended, dec_hi, dec_kk, dec_n, shr8, shr4, d1, dx, dk, u16_pc]
    simp
  · have d1 : (0x5000 + 0x100 * x + 0x10 * y) / 4096 % 16 = 5 := by omega
    have dx : (0x5000 + 0x100 * x + 0x10 * y) / 256 % 16 = x := by omega
    have dy : (0x5000 + 0x100 * x + 0x10 * y) / 16 % 16 = y := by omega
    refine ⟨if s.registers.V x = s.registers.V y
        then s.setPC ((s.registers.PC + 2) % 65536) else s,
      ?_, chip8_same_but_PC_ite s _ _⟩
    rw [chip8_exec_of_ge h s _ (by omega)]
    generalize 0x5000 + 0x100 * x + 0x10 * y = op at *
    simp only [chip8_exec_extended, dec_hi, dec_kk, dec_n, shr8, shr4, d1, dx, dy, u16_pc]
    simp
  · have d1 : (0x9000 + 0x100 * x + 0x10 * y) / 4096 % 16 = 9 := by omega
    have dx : (0x9000 + 0x100 * x + 0x10 * y) / 256 % 16 = x := by omega
    have dy : (0x9000 + 0x100 * x + 0x10 * y) / 16 % 16 = y := by omega
    refine ⟨if s.registers.V x ≠ s.registers.V y
        then s.setPC ((s.registers.PC + 2) % 65536) else s,
      ?_, chip8_same_but_PC_ite s _ _⟩
    rw [chip8_exec_of_ge h s _ (by omega)]
    generalize 0x9000 + 0x100 * x + 0x10 * y = op at *
    simp only [chip8_exec_extended, dec_hi, dec_kk, dec_n, shr8, shr4, d1, dx, dy, u16_pc]
    simp

/-- Witness of `chip8_exec_skip`: `x = 1`, `y = 2`, `kk = 0` in the initial
state, where `V[1] = V[2] = 0` and `PC = 0`. -/
theorem chip8_exec_skip_witness :
    1 ≤ 15 ∧ 2 ≤ 15 ∧ 0 ≤ 255 ∧
    (∃ s1, chip8_exec chip8_host_sample chip8_init (0x3000 + 0x100 * 1 + 0) = .ok s1 ∧
      s1.registers.PC = 2 ∧ chip8_same_but_PC chip8_init s1) ∧
    (∃ s1, chip8_exec chip8_host_sample chip8_init (0x4000 + 0x100 * 1 + 0) = .ok s1 ∧
      s1.registers.PC = 0 ∧ chip8_same_but_PC chip8_init s1) ∧
    (∃ s1, chip8_exec chip8_host_sample chip8_init (0x5000 + 0x100 * 1 + 0x10 * 2) = .ok s1 ∧
      s1.registers.PC = 2 ∧ chip8_same_but_PC chip8_init s1) ∧
    (∃ s1, chip8_exec chip8_host_sample chip8_init (0x9000 + 0x100 * 1 + 0x10 * 2) = .ok s1 ∧
      s1.registers.PC = 0 ∧ chip8_same_but_PC chip8_init s1) :=
  ⟨by decide, by decide, by decide,
   chip8_exec_skip chip8_host_sample chip8_init 1 2 0 (by decide) (by decide) (by decide)⟩

/-! ## The group `Fxkk`: BCD and block transfers -/

/-- C8: for every well-formed state with `I + 2 ≤ 4095` and every register `x`,
`chip8_exec` on `0xFx33` returns with the hundreds, tens and units digits of
`V[x]` at `I`, `I + 1`, `I + 2` (at most 2, 9, 9, and recombining to `V[x]`;
2, 3, 4 for 234), and with `V[x]` and `I` unchanged. -/
theorem chip8_exec_bcd (h : chip8_host) (s : chip8) (x : Nat)
    (hs : chip8_wf s) (hx : x ≤ 15) (hI : s.registers.I + 2 ≤ 4095) :
    ∃ s1, chip8_exec h s (0xF033 + 0x100 * x) = .ok s1 ∧
      s1.memory s.registers.I ≤ 2 ∧
      s1.memory (s.registers.I + 1) ≤ 9 ∧
      s1.memory (s.registers.I + 2) ≤ 9 ∧
      100 * s1.memory s.registers.I + 10 * s1.memory (s.registers.I + 1)
        + s1.memory (s.registers.I + 2) = s.registers.V x ∧
      (s.registers.V x = 234 → s1.memory s.registers.I = 2 ∧
        s1.memory (s.registers.I + 1) = 3 ∧ s1.memory (s.registers.I + 2) = 4) ∧
      s1.registers.V x = s.registers.V x ∧ s1.registers.I = s.registers.I := by
  have hv : s.registers.V x < 256 := hs.1 x (by omega)
  have dx : (0xF033 + 0x100 * x) / 256 % 16 = x := by omega
  have dk : (0xF033 + 0x100 * x) % 256 = 0x33 := by omega
  have hI0 : s.registers.I < CHIP8_MEMORY_SIZE := by unfold CHIP8_MEMORY_SIZE; omega
  have hI1 : s.registers.I + 1 < CHIP8_MEMORY_SIZE := by unfold CHIP8_MEMORY_SIZE; omega
  have hI2 : s.registers.I + 2 < CHIP8_MEMORY_SIZE := by unfold CHIP8_MEMORY_SIZE; omega
  have e : chip8_exec h s (0xF033 + 0x100 * x) = .ok { s with memory := (fun a =>
      if a = s.registers.I + 2 then s.registers.V x % 10
      else if a = s.registers.I + 1 then s.registers.V x / 10 % 10
      else if a = s.registers.I then s.registers.V x / 100
      else s.memory a) } := by
    rw [chip8_exec_groupF h s _ (by omega)]
    generalize 0xF033 + 0x100 * x = op at *
    have m1 : u8 ((s.registers.V x : Int) / 100) % 256 = s.registers.V x / 100 := by
      unfold u8; omega
    have m2 : u8 ((s.registers.V x : Int) / 10 % 10) % 256 = s.registers.V x / 10 % 10 := by
      unfold u8; omega
    have m3 : u8 ((s.registers.V x : Int) % 10) % 256 = s.registers.V x % 10 := by
      unfold u8; omega
    simp only [F_x, dec_kk, dec_n, shr8, dx, dk, chip8_memory_set, hI0, hI1, hI2]
    simp [bind, Except.bind, m1, m2, m3]
  refine ⟨_, e, ?_, ?_, ?_, ?_, ?_, rfl, rfl⟩
  · simp; omega
  · simp; omega
  · simp; omega
  · simp; omega
  · intro hv234
    simp [hv234]

/-- Witness of `chip8_exec_bcd`: `V[2] = 234` and `I = 0` in the initial state
with `V[2]` set. -/
theorem chip8_exec_bcd_witness :
    chip8_wf (chip8_init.setV 2 234) ∧ 2 ≤ 15 ∧
    (chip8_init.setV 2 234).registers.I + 2 ≤ 4095 ∧
    ∃ s1, chip8_exec chip8_host_sample (chip8_init.setV 2 234) (0xF033 + 0x100 * 2) = .ok s1 ∧
      s1.memory 0 ≤ 2 ∧ s1.memory (0 + 1) ≤ 9 ∧ s1.memory (0 + 2) ≤ 9 ∧
      100 * s1.memory 0 + 10 * s1.memory (0 + 1) + s1.memory (0 + 2) = 234 ∧
      ((chip8_init.setV 2 234).registers.V 2 = 234 → s1.memory 0 = 2 ∧
        s1.memory (0 + 1) = 3 ∧ s1.memory (0 + 2) = 4) ∧
      s1.registers.V 2 = 234 ∧ s1.registers.I = 0 :=
  ⟨chip8_wf_setV _ 2 234 chip8_init_wf (by decide), by decide, by decide,
   chip8_exec_bcd chip8_host_sample (chip8_init.setV 2 234) 2
     (chip8_wf_setV _ 2 234 chip8_init_wf (by decide)) (by decide) (by decide)⟩

/-- The `Fx55` loop, when its `k` addresses are in range, writes `V[0..k-1]` at
`I .. I+k-1` and nothing else. -/
theorem F_x_store_eq (s : chip8) (k : Nat) (hk : s.registers.I + k ≤ 4096) :
    F_x_store s k = .ok (fun a =>
      if s.registers.I ≤ a ∧ a < s.registers.I + k
      then s.registers.V (a - s.registers.I) % 256 else s.memory a) := by
  induction k with
  | zero =>
    simp only [F_x_store]
    congr 1
    funext a
    have : ¬ (s.registers.I ≤ a ∧ a < s.registers.I + 0) := by omega
    rw [if_neg this]
  | succ k ih =>
    have hlt : s.registers.I + k < CHIP8_MEMORY_SIZE := by unfold CHIP8_MEMORY_SIZE; omega
    simp only [F_x_store, ih (by omega), bind, Except.bind, chip8_memory_set, hlt, if_true]
    congr 1
    funext a
    by_cases e : a = s.registers.I + k
    · have : s.registers.I ≤ a ∧ a < s.registers.I + (k + 1) := by omega
      have e2 : a - s.registers.I = k := by omega
      simp only [this, and_self, if_true, e2]
      simp [e]
    · by_cases c : s.registers.I ≤ a ∧ a < s.registers.I + k
      · have : s.registers.I ≤ a ∧ a < s.registers.I + (k + 1) := by omega
        simp only [e, c, this, and_self, if_true, if_false]
      · have : ¬ (s.registers.I ≤ a ∧ a < s.registers.I + (k + 1)) := by omega
        simp only [e, c, this, if_false]

/-- The `Fx65` loop, when its `k` addresses are in range, reads `V[0..k-1]` from
`I .. I+k-1` and leaves the other registers. -/
theorem F_x_load_eq (s : chip8) (k : Nat) (hk : s.registers.I + k ≤ 4096) :
    F_x_load s k = .ok (fun j =>
      if j < k then s.memory (s.registers.I + j) else s.registers.V j) := by
  induction k with
  | zero => simp [F_x_load]
  | succ k ih =>
    have hlt : s.registers.I + k < CHIP8_MEMORY_SIZE := by unfold CHIP8_MEMORY_SIZE; omega
    simp only [F_x_load, ih (by omega), bind, Except.bind, chip8_memory_get, hlt, if_true]
    congr 1
    funext j
    by_cases e : j = k
    · simp [e]
    · by_cases c : j < k
      · have : j < k + 1 := by omega
        simp [e, c, this]
      · have : ¬ j < k + 1 := by omega
        simp [e, c, this]

/-- C7: for every well-formed state and `x` in 0..15 with `I + x ≤ 4095`,
`chip8_exec` on `0xFx55` returns with `memory[I + i] = V[i]` for every `i ≤ x`,
and `chip8_exec` on `0xFx65` after it returns with every register `V[0..15]`
holding the value it had before the store. -/
theorem chip8_exec_store_load (h : chip8_host) (s : chip8) (x : Nat)
    (hs : chip8_wf s) (hx : x ≤ 15) (hI : s.registers.I + x ≤ 4095) :
    ∃ s1 s2, chip8_exec h s (0xF055 + 0x100 * x) = .ok s1 ∧
      (∀ i, i ≤ x → s1.memory (s.registers.I + i) = s.registers.V i) ∧
      chip8_exec h s1 (0xF065 + 0x100 * x) = .ok s2 ∧
      (∀ i, i < 16 → s2.registers.V i = s.registers.V i) := by
  have e1 : chip8_exec h s (0xF055 + 0x100 * x) = .ok { s with memory := (fun a =>
      if s.registers.I ≤ a ∧ a < s.registers.I + (x + 1)
      then s.registers.V (a - s.registers.I) % 256 else s.memory a) } := by
    have dx : (0xF055 + 0x100 * x) / 256 % 16 = x := by omega
    have dk : (0xF055 + 0x100 * x) % 256 = 0x55 := by omega
    rw [chip8_exec_groupF h s _ (by omega)]
    generalize 0xF055 + 0x100 * x = op at *
    simp only [F_x, dec_kk, dec_n, shr8, dx, dk, F_x_store_eq s (x + 1) (by omega)]
    simp [bind, Except.bind]
  have e2 : ∀ s1 : chip8, s1.registers = s.registers →
      chip8_exec h s1 (0xF065 + 0x100 * x) = .ok { s1 with registers :=
        { s1.registers with V := (fun j =>
            if j < x + 1 then s1.memory (s1.registers.I + j) else s1.registers.V j) } } := by
    intro s1 hr
    have dx : (0xF065 + 0x100 * x) / 256 % 16 = x := by omega
    have dk : (0xF065 + 0x100 * x) % 256 = 0x65 := by omega
    have hI1 : s1.registers.I + (x + 1) ≤ 4096 := by rw [hr]; omega
    rw [chip8_exec_groupF h _ _ (by omega)]
    generalize 0xF065 + 0x100 * x = op at *
    simp only [F_x, dec_kk, dec_n, shr8, dx, dk, F_x_load_eq s1 (x + 1) hI1]
    simp [bind, Except.bind]
  refine ⟨_, _, e1, ?_, e2 _ rfl, ?_⟩
  · intro i hi
    have c : s.registers.I ≤ s.registers.I + i ∧
        s.registers.I + i < s.registers.I + (x + 1) := by omega
    have hv : s.registers.V i < 256 := hs.1 i (by omega)
    simp only [c, and_self, if_true, Nat.add_sub_cancel_left]
    omega
  · intro i hi
    have hv : s.registers.V i < 256 := hs.1 i hi
    by_cases c : i < x + 1
    · have c2 : s.registers.I ≤ s.registers.I + i ∧
          s.registers.I + i < s.registers.I + (x + 1) := by omega
      simp only [c, c2, and_self, if_true, Nat.add_sub_cancel_left]
      omega
    · simp only [c, if_false]

/-- Witness of `chip8_exec_store_load`: `x = 3` in the initial state with
`V[2] = 234`. -/
theorem chip8_exec_store_load_witness :
    chip8_wf (chip8_init.setV 2 234) ∧ 3 ≤ 15 ∧
    (chip8_init.setV 2 234).registers.I + 3 ≤ 4095 ∧
    ∃ s1 s2, chip8_exec chip8_host_sample (chip8_init.setV 2 234) (0xF055 + 0x100 * 3) = .ok s1 ∧
      (∀ i, i ≤ 3 → s1.memory ((chip8_init.setV 2 234).registers.I + i)
        = (chip8_init.setV 2 234).registers.V i) ∧
      chip8_exec chip8_host_sample s1 (0xF065 + 0x100 * 3) = .ok s2 ∧
      (∀ i, i < 16 → s2.registers.V i = (chip8_init.setV 2 234).registers.V i) :=
  ⟨chip8_wf_setV _ 2 234 chip8_init_wf (by decide), by decide, by decide,
   chip8_exec_store_load chip8_host_sample (chip8_init.setV 2 234) 3
     (chip8_wf_setV _ 2 234 chip8_init_wf (by decide)) (by decide) (by decide)⟩

/-! ## Memory addresses -/

/-- The `Fx55` loop does not complete when its last address is out of range. -/
theorem F_x_store_fail (s : chip8) (k : Nat) (hk : 4096 ≤ s.registers.I + k)
    (m : Nat → Nat) : F_x_store s (k + 1) ≠ .ok m := by
  have hlt : ¬ s.registers.I + k < CHIP8_MEMORY_SIZE := by unfold CHIP8_MEMORY_SIZE; omega
  cases hm : F_x_store s k <;>
    simp [F_x_store, hm, bind, Except.bind, chip8_memory_set, hlt]

/-- The `Fx65` loop does not complete when its last address is out of range. -/
theorem F_x_load_fail (s : chip8) (k : Nat) (hk : 4096 ≤ s.registers.I + k)
    (V : Nat → Nat) : F_x_load s (k + 1) ≠ .ok V := by
  have hlt : ¬ s.registers.I + k < CHIP8_MEMORY_SIZE := by unfold CHIP8_MEMORY_SIZE; omega
  cases hm : F_x_load s k <;>
    simp [F_x_load, hm, bind, Except.bind, chip8_memory_get, hlt]

/-- C6, as the code has it: a call of `chip8_exec` on an opcode of the group
`Fxkk` returns exactly when every address it asks the memory accessor for lies
in `[0, 4096)`; the accessor stops every other call.  (The core itself does
not keep `I` in range, see `chip8_reachable_address_outside_memory`.) -/
theorem chip8_exec_addresses_checked (h : chip8_host) (s : chip8) (opcode : Nat)
    (hlo : 0xF000 ≤ opcode) (hhi : opcode ≤ 0xFFFF) :
    (∃ s1, chip8_exec h s opcode = .ok s1) ↔
      ∀ a ∈ chip8_exec_addresses s opcode, a < CHIP8_MEMORY_SIZE := by
  have hD : ¬ (opcode &&& 0xf000 = 0xD000) := by rw [dec_hi]; omega
  have hF : opcode &&& 0xf000 = 0xF000 := by rw [dec_hi]; omega
  rw [chip8_exec_groupF h s _ (by omega)]
  simp only [chip8_exec_addresses, F_x, hD, hF, if_true, if_false, dec_kk, dec_n, shr8]
  generalize opcode / 256 % 16 = x
  generalize opcode % 256 = kk
  by_cases k33 : kk = 0x33
  · subst k33
    simp only [Nat.reduceEqDiff, if_true, if_false]
    simp only [CHIP8_MEMORY_SIZE, chip8_memory_set, bind, Except.bind]
    by_cases c0 : s.registers.I < 4096
    · by_cases c1 : s.registers.I + 1 < 4096
      · by_cases c2 : s.registers.I + 2 < 4096
        · simp [c0, c1, c2]
        · simp [c0, c1, c2]
      · simp [c0, c1]
    · simp [c0]
  · by_cases k55 : kk = 0x55
    · subst k55
      simp only [Nat.reduceEqDiff, if_true, if_false, CHIP8_MEMORY_SIZE]
      constructor
      · rintro ⟨s1, hs1⟩ a ha
        by_cases c : s.registers.I + x < 4096
        · simp only [List.mem_map, List.mem_range] at ha
          obtain ⟨i, hi, rfl⟩ := ha
          omega
        · exfalso
          cases hm : F_x_store s (x + 1) with
          | error e => simp [hm, bind, Except.bind] at hs1
          | ok m => exact F_x_store_fail s x (by omega) m hm
      · intro hall
        have c : s.registers.I + x < 4096 :=
          hall _ (List.mem_map.mpr ⟨x, List.mem_range.mpr (by omega), rfl⟩)
        rw [F_x_store_eq s (x + 1) (by omega)]
        exact ⟨_, rfl⟩
    · by_cases k65 : kk = 0x65
      · subst k65
        simp only [Nat.reduceEqDiff, if_true, if_false, CHIP8_MEMORY_SIZE]
        constructor
        · rintro ⟨s1, hs1⟩ a ha
          by_cases c : s.registers.I + x < 4096
          · simp only [List.mem_map, List.mem_range] at ha
            obtain ⟨i, hi, rfl⟩ := ha
            omega
          · exfalso
            cases hm : F_x_load s (x + 1) with
            | error e => simp [hm, bind, Except.bind] at hs1
            | ok m => exact F_x_load_fail s x (by omega) m hm
        · intro hall
          have c : s.registers.I + x < 4096 :=
            hall _ (List.mem_map.mpr ⟨x, List.mem_range.mpr (by omega), rfl⟩)
          rw [F_x_load_eq s (x + 1) (by omega)]
          exact ⟨_, rfl⟩
      · simp only [k33, k55, k65, if_false, Nat.reduceEqDiff]
        constructor
        · intro _ a ha
          simp at ha
        · intro _
          split_ifs <;> exact ⟨_, rfl⟩

/-- Witness of `chip8_exec_addresses_checked`: `0xF033` in the initial state,
where `I = 0`. -/
theorem chip8_exec_addresses_checked_witness :
    0xF000 ≤ 0xF033 ∧ 0xF033 ≤ 0xFFFF ∧
    ((∃ s1, chip8_exec chip8_host_sample chip8_init 0xF033 = .ok s1) ↔
      ∀ a ∈ chip8_exec_addresses chip8_init 0xF033, a < CHIP8_MEMORY_SIZE) :=
  ⟨by decide, by decide,
   chip8_exec_addresses_checked chip8_host_sample chip8_init 0xF033 (by decide) (by decide)⟩

/-- C6 fails as stated: after `chip8_init`, `chip8_load` of the empty program and
`chip8_exec` on `0xAFFF`, the index register is 4095, and `chip8_exec` on
`0xF033` asks for the addresses 4095, 4096, 4097; the call is stopped by the
accessor.  In the same state the two sprite bytes of `0xD002` are at 4095 and
4096.  So not every address touched in a reachable state lies in
`[0, 4096)`. -/
theorem chip8_reachable_address_outside_memory :
    (∃ s0 s1, chip8_load chip8_init [] = .ok s0 ∧
      chip8_exec chip8_host_sample s0 0xAFFF = .ok s1 ∧
      s1.registers.I = 4095 ∧
      chip8_exec_addresses s1 0xF033 = [4095, 4096, 4097] ∧
      chip8_exec chip8_host_sample s1 0xF033 = .error .memory_bounds ∧
      chip8_exec_addresses s1 0xD002 = [4095, 4096]) ∧
    ¬ (∀ (h : chip8_host) (s : chip8) (opcode : Nat), chip8_reachable h s →
        opcode < 65536 → ∀ a ∈ chip8_exec_addresses s opcode, a < CHIP8_MEMORY_SIZE) := by
  have e0 : chip8_load chip8_init [] = .ok ({ chip8_init with memory := (fun a =>
      if CHIP8_PROGRAM_LOAD_ADDRESS ≤ a ∧
          a < CHIP8_PROGRAM_LOAD_ADDRESS + ([] : List Nat).length then
        ([] : List Nat).getD (a - CHIP8_PROGRAM_LOAD_ADDRESS) 0 % 256
      else chip8_init.memory a) }.setPC CHIP8_PROGRAM_LOAD_ADDRESS) := rfl
  refine ⟨⟨_, _, e0, rfl, rfl, rfl, rfl, rfl⟩, ?_⟩
  intro hall
  have r0 := chip8_reachable.start (h := chip8_host_sample) [] _ e0
  have r1 := chip8_reachable.step (h := chip8_host_sample) _ _ 0xAFFF r0 (by decide) rfl
  have := hall chip8_host_sample _ 0xF033 r1 (by decide) 4096
    (by decide)
  exact absurd this (by decide)

/-! ## The ALU group, continued -/

theorem and_0x80 (a : Nat) (ha : a < 256) : a &&& 0x80 = if 128 ≤ a then 0x80 else 0 := by
  have e : a &&& 0x80 = (a.testBit 7).toNat * 2 ^ 7 := Nat.and_two_pow a 7
  have t : a.testBit 7 = decide (a / 2 ^ 7 % 2 = 1) := Nat.testBit_to_div_mod
  rw [e, t]
  by_cases c : 128 ≤ a
  · have h1 : a / 2 ^ 7 % 2 = 1 := by norm_num; omega
    rw [if_pos c, decide_eq_true h1]
    rfl
  · have h0 : ¬ (a / 2 ^ 7 % 2 = 1) := by norm_num; omega
    rw [if_neg c, decide_eq_false h0]
    rfl

/-- C11: for every well-formed state, `x` in 0..14 and `y` in 0..15,
`chip8_exec` on `0x8xyE` returns, leaving `V[0xF]` equal to the old `V[x]`
masked with `0x80`, which is `0x80` when the top bit of the old `V[x]` is set
and 0 otherwise, and `V[x]` equal to twice the old `V[x]` modulo 256; from 192
it leaves flag `0x80` and `V[x] = 128`. -/
theorem chip8_exec_shift_left (h : chip8_host) (s : chip8) (x y : Nat)
    (hs : chip8_wf s) (hx : x ≤ 14) (hy : y ≤ 15) :
    ∃ s1, chip8_exec h s (0x800E + 0x100 * x + 0x10 * y) = .ok s1 ∧
      s1.registers.V 0xF = s.registers.V x &&& 0x80 ∧
      s1.registers.V 0xF = (if 128 ≤ s.registers.V x then 0x80 else 0) ∧
      s1.registers.V x = (2 * s.registers.V x) % 256 ∧
      (s.registers.V x = 192 → s1.registers.V 0xF = 0x80 ∧ s1.registers.V x = 128) := by
  have ha : s.registers.V x < 256 := hs.1 x (by omega)
  have dx : (0x800E + 0x100 * x + 0x10 * y) / 256 % 16 = x := by omega
  have dn : (0x800E + 0x100 * x + 0x10 * y) % 16 = 14 := by omega
  have hx15 : ¬ (15 = x) := by omega
  have hx15b : ¬ (x = 15) := by omega
  have hu : u8 ((s.registers.V x : Int) * 2) = (2 * s.registers.V x) % 256 := by
    unfold u8; omega
  have e : chip8_exec h s (0x800E + 0x100 * x + 0x10 * y)
      = .ok ((s.setV 0x0f (s.registers.V x &&& 0b10000000)).setV x
          ((2 * s.registers.V x) % 256)) := by
    rw [chip8_exec_group8 h s _ (by omega)]
    generalize 0x800E + 0x100 * x + 0x10 * y = op at *
    simp only [eight_xyn, dec_n, shr8, shr4, dx, dn]
    simp [chip8.setV, hx15b, hu]
  have f1 : ((s.setV 0x0f (s.registers.V x &&& 0b10000000)).setV x
      ((2 * s.registers.V x) % 256)).registers.V 0xF = s.registers.V x &&& 0x80 := by
    simp [chip8.setV, hx15]
  have f2 : ((s.setV 0x0f (s.registers.V x &&& 0b10000000)).setV x
      ((2 * s.registers.V x) % 256)).registers.V x = (2 * s.registers.V x) % 256 := by
    simp [chip8.setV]
  refine ⟨_, e, f1, ?_, f2, ?_⟩
  · rw [f1]; exact and_0x80 _ ha
  · intro h192
    rw [f1, f2, h192]
    decide

/-- Witness of `chip8_exec_shift_left`: `x = 3`, `y = 7`, with `V[3] = 192`. -/
theorem chip8_exec_shift_left_witness :
    chip8_wf (chip8_init.setV 3 192) ∧ 3 ≤ 14 ∧ 7 ≤ 15 ∧
    ∃ s1, chip8_exec chip8_host_sample (chip8_init.setV 3 192)
        (0x800E + 0x100 * 3 + 0x10 * 7) = .ok s1 ∧
      s1.registers.V 0xF = 192 &&& 0x80 ∧
      s1.registers.V 0xF = 0x80 ∧
      s1.registers.V 3 = 128 ∧
      ((chip8_init.setV 3 192).registers.V 3 = 192 →
        s1.registers.V 0xF = 0x80 ∧ s1.registers.V 3 = 128) :=
  ⟨chip8_wf_setV _ 3 192 chip8_init_wf (by decide), by decide, by decide,
   chip8_exec_shift_left chip8_host_sample (chip8_init.setV 3 192) 3 7
     (chip8_wf_setV _ 3 192 chip8_init_wf (by decide)) (by decide) (by decide)⟩

theorem chip8_setV_frame (s : chip8) (x v : Nat) :
    (s.setV x v).registers.V x = v ∧ chip8_same_but_Vx x s (s.setV x v) := by
  refine ⟨by simp [chip8.setV], ?_, rfl, rfl, rfl, rfl, rfl, rfl, rfl, rfl⟩
  intro j hj
  simp [chip8.setV, hj]

/-- C18: for every state and `y` in 0..15, with the flag register as the
destination, `chip8_exec` on `0x8Fy4` returns with `V[0xF]` equal to the sum of
the old `V[0xF]` and `V[y]` modulo 256, and `chip8_exec` on `0x8Fy6` and on
`0x8FyE` returns with `V[0xF] = 0`. -/
theorem chip8_exec_flag_destination (h : chip8_host) (s : chip8) (y : Nat) (hy : y ≤ 15) :
    (∃ s1, chip8_exec h s (0x8F04 + 0x10 * y) = .ok s1 ∧
      s1.registers.V 0xF = (s.registers.V 0xF + s.registers.V y) % 256) ∧
    (∃ s1, chip8_exec h s (0x8F06 + 0x10 * y) = .ok s1 ∧ s1.registers.V 0xF = 0) ∧
    (∃ s1, chip8_exec h s (0x8F0E + 0x10 * y) = .ok s1 ∧ s1.registers.V 0xF = 0) := by
  refine ⟨?_, ?_, ?_⟩
  · have dx : (0x8F04 + 0x10 * y) / 256 % 16 = 15 := by omega
    have dy : (0x8F04 + 0x10 * y) / 16 % 16 = y := by omega
    have dn : (0x8F04 + 0x10 * y) % 16 = 4 := by omega
    have hu : u8 (u16 ((s.registers.V 15 : Int) + s.registers.V y) : Nat)
        = (s.registers.V 15 + s.registers.V y) % 256 := by
      unfold u8 u16; omega
    refine ⟨_, chip8_exec_group8 h s _ (by omega), ?_⟩
    generalize 0x8F04 + 0x10 * y = op at *
    simp only [eight_xyn, dec_n, shr8, shr4, dx, dy, dn]
    simp only [chip8.setV, if_true, Nat.reduceEqDiff, if_false]
    exact hu
  · have dx : (0x8F06 + 0x10 * y) / 256 % 16 = 15 := by omega
    have dn : (0x8F06 + 0x10 * y) % 16 = 6 := by omega
    have hz : (s.registers.V 15 &&& 1) / 2 = 0 := by
      rw [Nat.and_pow_two_sub_one_eq_mod _ 1]; omega
    refine ⟨_, chip8_exec_group8 h s _ (by omega), ?_⟩
    generalize 0x8F06 + 0x10 * y = op at *
    simp only [eight_xyn, dec_n, shr8, shr4, dx, dn]
    simp only [chip8.setV, if_true, Nat.reduceEqDiff, if_false]
    exact hz
  · have dx : (0x8F0E + 0x10 * y) / 256 % 16 = 15 := by omega
    have dn : (0x8F0E + 0x10 * y) % 16 = 14 := by omega
    have hz : u8 (((s.registers.V 15 &&& 128 : Nat) : Int) * 2) = 0 := by
      have e : s.registers.V 15 &&& 128 = ((s.registers.V 15).testBit 7).toNat * 2 ^ 7 :=
        Nat.and_two_pow _ 7
      rw [e]
      cases (s.registers.V 15).testBit 7 <;> decide
    refine ⟨_, chip8_exec_group8 h s _ (by omega), ?_⟩
    generalize 0x8F0E + 0x10 * y = op at *
    simp only [eight_xyn, dec_n, shr8, shr4, dx, dn]
    simp only [chip8.setV, if_true, Nat.reduceEqDiff, if_false]
    exact hz

/-- Witness of `chip8_exec_flag_destination`: `y = 2` with `V[0xF] = 200` and
`V[2] = 100`. -/
theorem chip8_exec_flag_destination_witness :
    2 ≤ 15 ∧
    (∃ s1, chip8_exec chip8_host_sample ((chip8_init.setV 15 200).setV 2 100)
        (0x8F04 + 0x10 * 2) = .ok s1 ∧ s1.registers.V 0xF = 44) ∧
    (∃ s1, chip8_exec chip8_host_sample ((chip8_init.setV 15 200).setV 2 100)
        (0x8F06 + 0x10 * 2) = .ok s1 ∧ s1.registers.V 0xF = 0) ∧
    (∃ s1, chip8_exec chip8_host_sample ((chip8_init.setV 15 200).setV 2 100)
        (0x8F0E + 0x10 * 2) = .ok s1 ∧ s1.registers.V 0xF = 0) :=
  ⟨by decide,
   chip8_exec_flag_destination chip8_host_sample ((chip8_init.setV 15 200).setV 2 100) 2
     (by decide)⟩

/-- C17: for every state and `x`, `y` in 0..15, `chip8_exec` on `0x8xy0`,
`0x8xy1`, `0x8xy2`, `0x8xy3` returns with `V[x]` equal to the old `V[y]`,
`V[x] | V[y]`, `V[x] & V[y]`, `V[x] ^ V[y]` respectively, and with every other
register (so `V[0xF]` when `x ≠ 0xF`), `I`, `PC`, the timers, memory and the
stack unchanged. -/
theorem chip8_exec_logic (h : chip8_host) (s : chip8) (x y : Nat)
    (hx : x ≤ 15) (hy : y ≤ 15) :
    (∃ s1, chip8_exec h s (0x8000 + 0x100 * x + 0x10 * y) = .ok s1 ∧
      s1.registers.V x = s.registers.V y ∧ chip8_same_but_Vx x s s1) ∧
    (∃ s1, chip8_exec h s (0x8001 + 0x100 * x + 0x10 * y) = .ok s1 ∧
      s1.registers.V x = s.registers.V x ||| s.registers.V y ∧
      chip8_same_but_Vx x s s1) ∧
    (∃ s1, chip8_exec h s (0x8002 + 0x100 * x + 0x10 * y) = .ok s1 ∧
      s1.registers.V x = s.registers.V x &&& s.registers.V y ∧
      chip8_same_but_Vx x s s1) ∧
    (∃ s1, chip8_exec h s (0x8003 + 0x100 * x + 0x10 * y) = .ok s1 ∧
      s1.registers.V x = s.registers.V x ^^^ s.registers.V y ∧
      chip8_same_but_Vx x s s1) := by
  refine ⟨?_, ?_, ?_, ?_⟩
  · have dx : (0x8000 + 0x100 * x + 0x10 * y) / 256 % 16 = x := by omega
    have dy : (0x8000 + 0x100 * x + 0x10 * y) / 16 % 16 = y := by omega
    have dn : (0x8000 + 0x100 * x + 0x10 * y) % 16 = 0 := by omega
    refine ⟨s.setV x (s.registers.V y), ?_, chip8_setV_frame s x _⟩
    rw [chip8_exec_group8 h s _ (by omega)]
    generalize 0x8000 + 0x100 * x + 0x10 * y = op at *
    simp only [eight_xyn, dec_n, shr8, shr4, dx, dy, dn]
    simp
  · have dx : (0x8001 + 0x100 * x + 0x10 * y) / 256 % 16 = x := by omega
    have dy : (0x8001 + 0x100 * x + 0x10 * y) / 16 % 16 = y := by omega
    have dn : (0x8001 + 0x100 * x + 0x10 * y) % 16 = 1 := by omega
    refine ⟨s.setV x (s.registers.V x ||| s.registers.V y), ?_, chip8_setV_frame s x _⟩
    rw [chip8_exec_group8 h s _ (by omega)]
    generalize 0x8001 + 0x100 * x + 0x10 * y = op at *
    simp only [eight_xyn, dec_n, shr8, shr4, dx, dy, dn]
    simp
  · have dx : (0x8002 + 0x100 * x + 0x10 * y) / 256 % 16 = x := by omega
    have dy : (0x8002 + 0x100 * x + 0x10 * y) / 16 % 16 = y := by omega
    have dn : (0x8002 + 0x100 * x + 0x10 * y) % 16 = 2 := by omega
    refine ⟨s.setV x (s.registers.V x &&& s.registers.V y), ?_, chip8_setV_frame s x _⟩
    rw [chip8_exec_group8 h s _ (by omega)]
    generalize 0x8002 + 0x100 * x + 0x10 * y = op at *
    simp only [eight_xyn, dec_n, shr8, shr4, dx, dy, dn]
    simp
  · have dx : (0x8003 + 0x100 * x + 0x10 * y) / 256 % 16 = x := by omega
    have dy : (0x8003 + 0x100 * x + 0x10 * y) / 16 % 16 = y := by omega
    have dn : (0x8003 + 0x100 * x + 0x10 * y) % 16 = 3 := by omega
    refine ⟨s.setV x (s.registers.V x ^^^ s.registers.V y), ?_, chip8_setV_frame s x _⟩
    rw [chip8_exec_group8 h s _ (by omega)]
    generalize 0x8003 + 0x100 * x + 0x10 * y = op at *
    simp only [eight_xyn, dec_n, shr8, shr4, dx, dy, dn]
    simp

/-- Witness of `chip8_exec_logic`: `x = 1`, `y = 2` with `V[1] = 12` and
`V[2] = 10`. -/
theorem chip8_exec_logic_witness :
    1 ≤ 15 ∧ 2 ≤ 15 ∧
    (∃ s1, chip8_exec chip8_host_sample ((chip8_init.setV 1 12).setV 2 10)
        (0x8000 + 0x100 * 1 + 0x10 * 2) = .ok s1 ∧
      s1.registers.V 1 = 10 ∧
      chip8_same_but_Vx 1 ((chip8_init.setV 1 12).setV 2 10) s1) ∧
    (∃ s1, chip8_exec chip8_host_sample ((chip8_init.setV 1 12).setV 2 10)
        (0x8001 + 0x100 * 1 + 0x10 * 2) = .ok s1 ∧
      s1.registers.V 1 = 14 ∧
      chip8_same_but_Vx 1 ((chip8_init.setV 1 12).setV 2 10) s1) ∧
    (∃ s1, chip8_exec chip8_host_sample ((chip8_init.setV 1 12).setV 2 10)
        (0x8002 + 0x100 * 1 + 0x10 * 2) = .ok s1 ∧
      s1.registers.V 1 = 8 ∧
      chip8_same_but_Vx 1 ((chip8_init.setV 1 12).setV 2 10) s1) ∧
    (∃ s1, chip8_exec chip8_host_sample ((chip8_init.setV 1 12).setV 2 10)
        (0x8003 + 0x100 * 1 + 0x10 * 2) = .ok s1 ∧
      s1.registers.V 1 = 6 ∧
      chip8_same_but_Vx 1 ((chip8_init.setV 1 12).setV 2 10) s1) :=
  ⟨by decide, by decide,
   chip8_exec_logic chip8_host_sample ((chip8_init.setV 1 12).setV 2 10) 1 2
     (by decide) (by decide)⟩

/-- C16: for every state, `x` in 0..15 and `kk` in 0..255, `chip8_exec` on
`0x7xkk` returns with `V[x]` equal to the old `V[x]` plus `kk` modulo 256, and
with every other register (so `V[0xF]` when `x ≠ 0xF`, also when the addition
overflows), `I`, `PC`, the timers, memory and the stack unchanged. -/
theorem chip8_exec_add_immediate (h : chip8_host) (s : chip8) (x kk : Nat)
    (hx : x ≤ 15) (hkk : kk ≤ 255) :
    ∃ s1, chip8_exec h s (0x7000 + 0x100 * x + kk) = .ok s1 ∧
      s1.registers.V x = (s.registers.V x + kk) % 256 ∧
      chip8_same_but_Vx x s s1 := by
  have d1 : (0x7000 + 0x100 * x + kk) / 4096 % 16 = 7 := by omega
  have dx : (0x7000 + 0x100 * x + kk) / 256 % 16 = x := by omega
  have dk : (0x7000 + 0x100 * x + kk) % 256 = kk := by omega
  have hu : u8 ((s.registers.V x : Int) + kk) = (s.registers.V x + kk) % 256 := by
    unfold u8; omega
  refine ⟨s.setV x ((s.registers.V x + kk) % 256), ?_, chip8_setV_frame s x _⟩
  rw [chip8_exec_of_ge h s _ (by omega)]
  generalize 0x7000 + 0x100 * x + kk = op at *
  simp only [chip8_exec_extended, dec_hi, dec_kk, dec_n, shr8, shr4, d1, dx, dk, hu]
  simp

/-- Witness of `chip8_exec_add_immediate`: `x = 1`, `kk = 100` with
`V[1] = 200`: the sum wraps to 44 and `V[0xF]` stays 0. -/
theorem chip8_exec_add_immediate_witness :
    1 ≤ 15 ∧ 100 ≤ 255 ∧
    ∃ s1, chip8_exec chip8_host_sample (chip8_init.setV 1 200)
        (0x7000 + 0x100 * 1 + 100) = .ok s1 ∧
      s1.registers.V 1 = 44 ∧
      chip8_same_but_Vx 1 (chip8_init.setV 1 200) s1 :=
  ⟨by decide, by decide,
   chip8_exec_add_immediate chip8_host_sample (chip8_init.setV 1 200) 1 100
     (by decide) (by decide)⟩

/-! ## Unrecognised opcodes -/

/-- C12: `chip8_exec` returns the state it was given, unchanged, on every
opcode that matches no instruction: `0x0nnn` other than `0x00E0` and `0x00EE`,
`0x8xyN` with `N` one of 8, 9, A, B, C, D, F, `0xExkk` with `kk` neither `0x9E`
nor `0xA1`, and `0xFxkk` with `kk` none of `07`, `0A`, `15`, `18`, `1E`, `29`,
`33`, `55`, `65`. -/
theorem chip8_exec_unrecognised (h : chip8_host) (s : chip8) (nnn x y n ke kf : Nat)
    (hnnn : nnn ≤ 0xFFF) (h0 : nnn ≠ 0x0E0 ∧ nnn ≠ 0x0EE)
    (hx : x ≤ 15) (hy : y ≤ 15)
    (hn : n ∈ [0x8, 0x9, 0xA, 0xB, 0xC, 0xD, 0xF])
    (hke : ke ≤ 255) (hE : ke ≠ 0x9E ∧ ke ≠ 0xA1)
    (hkf : kf ≤ 255)
    (hF : kf ∉ [0x07, 0x0A, 0x15, 0x18, 0x1E, 0x29, 0x33, 0x55, 0x65]) :
    chip8_exec h s nnn = .ok s ∧
    chip8_exec h s (0x8000 + 0x100 * x + 0x10 * y + n) = .ok s ∧
    chip8_exec h s (0xE000 + 0x100 * x + ke) = .ok s ∧
    chip8_exec h s (0xF000 + 0x100 * x + kf) = .ok s := by
  refine ⟨?_, ?_, ?_, ?_⟩
  · have d1 : nnn / 4096 % 16 = 0 := by omega
    simp only [chip8_exec, h0.1, h0.2, if_false, chip8_exec_extended, dec_hi, d1]
    simp
  · have hn15 : n ≤ 15 := by
      simp only [List.mem_cons, List.mem_singleton, List.not_mem_nil, or_false] at hn
      omega
    have dn : (0x8000 + 0x100 * x + 0x10 * y + n) % 16 = n := by omega
    rw [chip8_exec_group8 h s _ (by omega)]
    generalize 0x8000 + 0x100 * x + 0x10 * y + n = op at *
    simp only [eight_xyn, dec_n, dn]
    simp only [List.mem_cons, List.mem_singleton, List.not_mem_nil, or_false] at hn
    rcases hn with r | r | r | r | r | r | r <;> subst r <;> simp
  · have d1 : (0xE000 + 0x100 * x + ke) / 4096 % 16 = 14 := by omega
    have dk : (0xE000 + 0x100 * x + ke) % 256 = ke := by omega
    rw [chip8_exec_of_ge h s _ (by omega)]
    generalize 0xE000 + 0x100 * x + ke = op at *
    simp only [chip8_exec_extended, dec_hi, dec_kk, d1, dk]
    simp [hE.1, hE.2]
  · have dk : (0xF000 + 0x100 * x + kf) % 256 = kf := by omega
    rw [chip8_exec_groupF h s _ (by omega)]
    generalize 0xF000 + 0x100 * x + kf = op at *
    simp only [List.mem_cons, List.mem_singleton, List.not_mem_nil, or_false, not_or] at hF
    obtain ⟨f1, f2, f3, f4, f5, f6, f7, f8, f9⟩ := hF
    simp only [F_x, dec_kk, dk]
    simp [f1, f2, f3, f4, f5, f6, f7, f8, f9]

/-- Witness of `chip8_exec_unrecognised`: the opcodes `0x0123`, `0x8128`,
`0xE1FF` and `0xF1FF` in the initial state. -/
theorem chip8_exec_unrecognised_witness :
    (0x123 ≤ 0xFFF ∧ (0x123 ≠ 0x0E0 ∧ 0x123 ≠ 0x0EE) ∧ 1 ≤ 15 ∧ 2 ≤ 15 ∧
      8 ∈ [0x8, 0x9, 0xA, 0xB, 0xC, 0xD, 0xF] ∧ 0xFF ≤ 255 ∧
      (0xFF ≠ 0x9E ∧ 0xFF ≠ 0xA1) ∧
      0xFF ∉ [0x07, 0x0A, 0x15, 0x18, 0x1E, 0x29, 0x33, 0x55, 0x65]) ∧
    chip8_exec chip8_host_sample chip8_init 0x123 = .ok chip8_init ∧
    chip8_exec chip8_host_sample chip8_init (0x8000 + 0x100 * 1 + 0x10 * 2 + 8)
      = .ok chip8_init ∧
    chip8_exec chip8_host_sample chip8_init (0xE000 + 0x100 * 1 + 0xFF) = .ok chip8_init ∧
    chip8_exec chip8_host_sample chip8_init (0xF000 + 0x100 * 1 + 0xFF) = .ok chip8_init :=
  ⟨by decide,
   chip8_exec_unrecognised chip8_host_sample chip8_init 0x123 1 2 8 0xFF 0xFF
     (by decide) (by decide) (by decide) (by decide) (by decide) (by decide) (by decide)
     (by decide) (by decide)⟩

/-! ## The random byte -/

/-- C14: evaluation of `chip8_exec` on `0xC0FF` (`x = 0`, `kk = 0xFF`) for every
host, so for every value `rand()` returns, and every state: the call returns
with `V[0] = rand() % 255`, which is at most 254; `V[0] = 255` is never the
result. -/
theorem chip8_exec_random_never_255 (h : chip8_host) (s : chip8) :
    ∃ s1, chip8_exec h s 0xC0FF = .ok s1 ∧
      s1.registers.V 0 = h.rand % 255 ∧ s1.registers.V 0 ≤ 254 ∧
      s1.registers.V 0 ≠ 255 := by
  have hm : (h.rand % 255) &&& 0xff = h.rand % 255 := by
    rw [Nat.and_pow_two_sub_one_eq_mod _ 8]; omega
  have hu : u8 (((h.rand % 255) &&& 0xff : Nat) : Int) = h.rand % 255 := by
    rw [hm]; unfold u8; omega
  have e : chip8_exec h s 0xC0FF = .ok (s.setV 0 (h.rand % 255)) := by
    rw [chip8_exec_of_ge h s _ (by decide)]
    simp only [chip8_exec_extended, dec_hi, dec_kk, dec_n, shr8, shr4]
    simp only [Nat.reduceDiv, Nat.reduceMod, Nat.reduceMul, Nat.reduceEqDiff, if_true,
      if_false]
    rw [hu]
  refine ⟨_, e, ?_, ?_, ?_⟩ <;> simp [chip8.setV] <;> omega

/-! ## Loading a program -/

/-- C13: for every state and every byte buffer `buf` with
`buf.length + 0x200 < 4096`, `chip8_load` returns with `memory[0x200 + i]` equal
to `buf[i]` for every `i` below the length, `PC = 0x200`, and every other
memory byte (below `0x200`, so the font, and from `0x200 + buf.length` up), the
registers `V`, `I`, the timers, the stack, the screen and the keyboard
unchanged; for every buffer `big` with `big.length + 0x200 ≥ 4096` the assertion
stops the call and nothing is written. -/
theorem chip8_load_spec (s : chip8) (buf big : List Nat)
    (hsize : buf.length + 0x200 < 4096) (hbytes : ∀ b ∈ buf, b < 256)
    (hbig : big.length + 0x200 ≥ 4096) :
    (∃ s1, chip8_load s buf = .ok s1 ∧
      (∀ i, i < buf.length → s1.memory (0x200 + i) = buf.getD i 0) ∧
      s1.registers.PC = 0x200 ∧
      (∀ a, a < 0x200 ∨ 0x200 + buf.length ≤ a → s1.memory a = s.memory a) ∧
      s1.registers.V = s.registers.V ∧ s1.registers.I = s.registers.I ∧
      s1.registers.delay_timer = s.registers.delay_timer ∧
      s1.registers.sound_timer = s.registers.sound_timer ∧
      s1.stack = s.stack ∧ s1.screen = s.screen ∧ s1.keyboard = s.keyboard) ∧
    chip8_load s big = .error .load_assert := by
  constructor
  · have c : buf.length + CHIP8_PROGRAM_LOAD_ADDRESS < CHIP8_MEMORY_SIZE := by
      unfold CHIP8_PROGRAM_LOAD_ADDRESS CHIP8_MEMORY_SIZE; omega
    have e : chip8_load s buf = .ok ({ s with memory := (fun a =>
        if CHIP8_PROGRAM_LOAD_ADDRESS ≤ a ∧ a < CHIP8_PROGRAM_LOAD_ADDRESS + buf.length then
          buf.getD (a - CHIP8_PROGRAM_LOAD_ADDRESS) 0 % 256
        else s.memory a) }.setPC CHIP8_PROGRAM_LOAD_ADDRESS) := by
      simp only [chip8_load, c, if_true]
    refine ⟨_, e, ?_, rfl, ?_, rfl, rfl, rfl, rfl, rfl, rfl, rfl⟩
    · intro i hi
      have c1 : CHIP8_PROGRAM_LOAD_ADDRESS ≤ 0x200 + i ∧
          0x200 + i < CHIP8_PROGRAM_LOAD_ADDRESS + buf.length := by
        unfold CHIP8_PROGRAM_LOAD_ADDRESS; omega
      have c2 : 0x200 + i - CHIP8_PROGRAM_LOAD_ADDRESS = i := by
        unfold CHIP8_PROGRAM_LOAD_ADDRESS; omega
      have hb : buf.getD i 0 < 256 := by
        rw [List.getD_eq_getElem _ _ hi]
        exact hbytes _ (List.getElem_mem _)
      simp only [chip8.setPC, c1, and_self, if_true, c2]
      exact Nat.mod_eq_of_lt hb
    · intro a ha
      have c1 : ¬ (CHIP8_PROGRAM_LOAD_ADDRESS ≤ a ∧
          a < CHIP8_PROGRAM_LOAD_ADDRESS + buf.length) := by
        unfold CHIP8_PROGRAM_LOAD_ADDRESS; omega
      simp only [chip8.setPC, c1, if_false]
  · have c : ¬ (big.length + CHIP8_PROGRAM_LOAD_ADDRESS < CHIP8_MEMORY_SIZE) := by
      unfold CHIP8_PROGRAM_LOAD_ADDRESS CHIP8_MEMORY_SIZE; omega
    simp only [chip8_load, c, if_false]

/-- Witness of `chip8_load_spec`: the three-byte program `12 00 ff` and a buffer
of 3584 zero bytes, loaded into the initial state. -/
theorem chip8_load_spec_witness :
    ([0x12, 0x00, 0xff] : List Nat).length + 0x200 < 4096 ∧
    (∀ b ∈ ([0x12, 0x00, 0xff] : List Nat), b < 256) ∧
    (List.replicate 3584 0).length + 0x200 ≥ 4096 ∧
    (∃ s1, chip8_load chip8_init [0x12, 0x00, 0xff] = .ok s1 ∧
      (∀ i, i < ([0x12, 0x00, 0xff] : List Nat).length →
        s1.memory (0x200 + i) = ([0x12, 0x00, 0xff] : List Nat).getD i 0) ∧
      s1.registers.PC = 0x200 ∧
      (∀ a, a < 0x200 ∨ 0x200 + ([0x12, 0x00, 0xff] : List Nat).length ≤ a →
        s1.memory a = chip8_init.memory a) ∧
      s1.registers.V = chip8_init.registers.V ∧
      s1.registers.I = chip8_init.registers.I ∧
      s1.registers.delay_timer = chip8_init.registers.delay_timer ∧
      s1.registers.sound_timer = chip8_init.registers.sound_timer ∧
      s1.stack = chip8_init.stack ∧ s1.screen = chip8_init.screen ∧
      s1.keyboard = chip8_init.keyboard) ∧
    chip8_load chip8_init (List.replicate 3584 0) = .error .load_assert :=
  ⟨by decide, by decide, by rw [List.length_replicate],
   chip8_load_spec chip8_init [0x12, 0x00, 0xff] (List.replicate 3584 0)
     (by decide) (by decide) (by rw [List.length_replicate])⟩

/-! ## The font -/

/-- C15: let `s0` be the state after `chip8_init`, or after `chip8_init` and a
`chip8_load` that returns, and `s` any well-formed state with the memory of
`s0`.  For every register `x`, `chip8_exec` on `0xFx29` returns with
`I = 5 * V[x]`, a product below 65536; and when `V[x]` is a hex digit `d` the
five bytes at `I .. I + 4` are the five bytes of entry `d` of
`chip8_default_character_set`, and `I + 4 ≤ 79`. -/
theorem chip8_exec_font (h : chip8_host) (s0 s : chip8) (x : Nat)
    (hstart : s0 = chip8_init ∨ ∃ buf, chip8_load chip8_init buf = .ok s0)
    (hmem : s.memory = s0.memory) (hs : chip8_wf s) (hx : x ≤ 15) :
    ∃ s1, chip8_exec h s (0xF029 + 0x100 * x) = .ok s1 ∧
      s1.registers.I = 5 * s.registers.V x ∧
      5 * s.registers.V x < 65536 ∧
      (s.registers.V x ≤ 15 →
        s1.registers.I + 4 ≤ 79 ∧
        ∀ j, j < 5 → s1.memory (s1.registers.I + j)
          = chip8_default_character_set.getD (5 * s.registers.V x + j) 0) := by
  have hv : s.registers.V x < 256 := hs.1 x (by omega)
  have dx : (0xF029 + 0x100 * x) / 256 % 16 = x := by omega
  have dk : (0xF029 + 0x100 * x) % 256 = 0x29 := by omega
  have hu : u16 ((s.registers.V x : Int) * (CHIP8_DEFAULT_SPRITE_HEIGHT : Nat))
      = 5 * s.registers.V x := by
    unfold u16 CHIP8_DEFAULT_SPRITE_HEIGHT; omega
  have hfont : ∀ a, a < 80 → s.memory a = chip8_default_character_set.getD a 0 := by
    intro a ha
    rw [hmem]
    rcases hstart with r | ⟨buf, r⟩
    · rw [r]; rfl
    · unfold chip8_load at r
      split at r
      · injection r with r
        rw [← r]
        have c1 : ¬ (CHIP8_PROGRAM_LOAD_ADDRESS ≤ a ∧
            a < CHIP8_PROGRAM_LOAD_ADDRESS + buf.length) := by
          unfold CHIP8_PROGRAM_LOAD_ADDRESS; omega
        simp only [chip8.setPC, c1, if_false]
        rfl
      · cases r
  have e : chip8_exec h s (0xF029 + 0x100 * x) = .ok (s.setI (5 * s.registers.V x)) := by
    rw [chip8_exec_groupF h s _ (by omega)]
    generalize 0xF029 + 0x100 * x = op at *
    simp only [F_x, dec_kk, dec_n, shr8, dx, dk, hu]
    simp
  refine ⟨_, e, rfl, by omega, ?_⟩
  intro hd
  refine ⟨by simp only [chip8.setI]; omega, ?_⟩
  intro j hj
  simp only [chip8.setI]
  exact hfont _ (by omega)

/-- Witness of `chip8_exec_font`: `x = 2` with `V[2] = 7` in the initial
state. -/
theorem chip8_exec_font_witness :
    (chip8_init = chip8_init ∨ ∃ buf, chip8_load chip8_init buf = .ok chip8_init) ∧
    (chip8_init.setV 2 7).memory = chip8_init.memory ∧
    chip8_wf (chip8_init.setV 2 7) ∧ 2 ≤ 15 ∧
    ∃ s1, chip8_exec chip8_host_sample (chip8_init.setV 2 7) (0xF029 + 0x100 * 2) = .ok s1 ∧
      s1.registers.I = 35 ∧
      5 * 7 < 65536 ∧
      ((chip8_init.setV 2 7).registers.V 2 ≤ 15 →
        s1.registers.I + 4 ≤ 79 ∧
        ∀ j, j < 5 → s1.memory (s1.registers.I + j)
          = chip8_default_character_set.getD (5 * 7 + j) 0) :=
  ⟨Or.inl rfl, rfl, chip8_wf_setV _ 2 7 chip8_init_wf (by decide), by decide,
   chip8_exec_font chip8_host_sample chip8_init (chip8_init.setV 2 7) 2 (Or.inl rfl) rfl
     (chip8_wf_setV _ 2 7 chip8_init_wf (by decide)) (by decide)⟩

/-! ## Block transfers: what they leave alone -/

/-- C19: for every state and `x` in 0..15 with `I + x ≤ 4095`, `chip8_exec` on
`0xFx55` returns with all registers (`V`, `I`, `PC`, the timers) and the stack
unchanged and no memory byte changed outside `I .. I + x`, and `chip8_exec` on
`0xFx65` returns with `I`, `PC`, all of memory and the registers above `V[x]`
unchanged. -/
theorem chip8_exec_block_frame (h : chip8_host) (s : chip8) (x : Nat)
    (hx : x ≤ 15) (hI : s.registers.I + x ≤ 4095) :
    (∃ s1, chip8_exec h s (0xF055 + 0x100 * x) = .ok s1 ∧
      s1.registers.I = s.registers.I ∧ s1.registers.PC = s.registers.PC ∧
      s1.registers.V = s.registers.V ∧ s1.registers = s.registers ∧
      s1.stack = s.stack ∧
      (∀ a, a < s.registers.I ∨ s.registers.I + x < a → s1.memory a = s.memory a)) ∧
    (∃ s2, chip8_exec h s (0xF065 + 0x100 * x) = .ok s2 ∧
      s2.registers.I = s.registers.I ∧ s2.registers.PC = s.registers.PC ∧
      s2.memory = s.memory ∧ s2.stack = s.stack ∧
      (∀ j, x < j → j ≤ 15 → s2.registers.V j = s.registers.V j)) := by
  constructor
  · have e1 : chip8_exec h s (0xF055 + 0x100 * x) = .ok { s with memory := (fun a =>
        if s.registers.I ≤ a ∧ a < s.registers.I + (x + 1)
        then s.registers.V (a - s.registers.I) % 256 else s.memory a) } := by
      have dx : (0xF055 + 0x100 * x) / 256 % 16 = x := by omega
      have dk : (0xF055 + 0x100 * x) % 256 = 0x55 := by omega
      rw [chip8_exec_groupF h s _ (by omega)]
      generalize 0xF055 + 0x100 * x = op at *
      simp only [F_x, dec_kk, dec_n, shr8, dx, dk, F_x_store_eq s (x + 1) (by omega)]
      simp [bind, Except.bind]
    refine ⟨_, e1, rfl, rfl, rfl, rfl, rfl, ?_⟩
    intro a ha
    have c : ¬ (s.registers.I ≤ a ∧ a < s.registers.I + (x + 1)) := by omega
    simp only [c, if_false]
  · have e2 : chip8_exec h s (0xF065 + 0x100 * x) = .ok { s with registers :=
        { s.registers with V := (fun j =>
            if j < x + 1 then s.memory (s.registers.I + j) else s.registers.V j) } } := by
      have dx : (0xF065 + 0x100 * x) / 256 % 16 = x := by omega
      have dk : (0xF065 + 0x100 * x) % 256 = 0x65 := by omega
      rw [chip8_exec_groupF h _ _ (by omega)]
      generalize 0xF065 + 0x100 * x = op at *
      simp only [F_x, dec_kk, dec_n, shr8, dx, dk, F_x_load_eq s (x + 1) (by omega)]
      simp [bind, Except.bind]
    refine ⟨_, e2, rfl, rfl, rfl, rfl, ?_⟩
    intro j hj _
    have c : ¬ (j < x + 1) := by omega
    simp only [c, if_false]

/-- Witness of `chip8_exec_block_frame`: `x = 3` in the initial state with
`V[2] = 234`. -/
theorem chip8_exec_block_frame_witness :
    3 ≤ 15 ∧ (chip8_init.setV 2 234).registers.I + 3 ≤ 4095 ∧
    (∃ s1, chip8_exec chip8_host_sample (chip8_init.setV 2 234) (0xF055 + 0x100 * 3) = .ok s1 ∧
      s1.registers.I = (chip8_init.setV 2 234).registers.I ∧
      s1.registers.PC = (chip8_init.setV 2 234).registers.PC ∧
      s1.registers.V = (chip8_init.setV 2 234).registers.V ∧
      s1.registers = (chip8_init.setV 2 234).registers ∧
      s1.stack = (chip8_init.setV 2 234).stack ∧
      (∀ a, a < (chip8_init.setV 2 234).registers.I ∨
          (chip8_init.setV 2 234).registers.I + 3 < a →
        s1.memory a = (chip8_init.setV 2 234).memory a)) ∧
    (∃ s2, chip8_exec chip8_host_sample (chip8_init.setV 2 234) (0xF065 + 0x100 * 3) = .ok s2 ∧
      s2.registers.I = (chip8_init.setV 2 234).registers.I ∧
      s2.registers.PC = (chip8_init.setV 2 234).registers.PC ∧
      s2.memory = (chip8_init.setV 2 234).memory ∧
      s2.stack = (chip8_init.setV 2 234).stack ∧
      (∀ j, 3 < j → j ≤ 15 →
        s2.registers.V j = (chip8_init.setV 2 234).registers.V j)) :=
  ⟨by decide, by decide,
   chip8_exec_block_frame chip8_host_sample (chip8_init.setV 2 234) 3 (by decide) (by decide)⟩

end Chip8
